import Mathlib

/-!
Verification of the entity-alias resolution engine of the
grade-conversion repository
(`grade_conversion_script/util/alias_record.py`).

The Python class `AliasRecord` keeps
  * `_dict : dict[int, set[str]]` mapping an integer entity ID to its
    set of alias strings, and
  * `_next_id : int`, starting at `400`.

We embed the store as an insertion-ordered association list
(`dict : List (Nat × List String)`) together with the counter; Python
sets are embedded as duplicate-free lists in insertion order and all
set-level claims are stated through membership.  Every fallible Python
method becomes an `Except`-valued Lean function; methods that may have
mutated the object before raising return the state at the moment of
the raise inside the error value, so that atomicity claims can be
stated faithfully.
-/

abbrev Alias := String

/-- The exceptions the Python code can raise from the operations we model:
`IdNotFoundException`, `AliasNotFoundException`, `ValueError` for an alias
bound elsewhere (`aliasExists`), `ValueError` for a merge spanning several
entities (`conflictingIds`), `StopIteration` escaping `best_effort_alias`,
`IndexError` from `[0]` on an empty list, a failed `assert`, and the
`ValueError` of `set_index(verify_integrity=True)` on duplicate IDs. -/
inductive PyErr where
  | idNotFound
  | aliasNotFound
  | aliasExists
  | conflictingIds
  | stopIteration
  | indexError
  | assertFail
  | dupIndex
deriving Repr, DecidableEq

/-- The `AliasRecord` store: `_dict` as an insertion-ordered association
list from entity ID to the entity's aliases (a duplicate-free list standing
for the Python `set[str]`), and the `_next_id` counter. -/
structure AliasRecord where
  dict : List (Nat × List Alias)
  next_id : Nat
deriving Repr, DecidableEq

/-- A freshly constructed `AliasRecord()`: empty `_dict`, `_next_id = 400`. -/
def AliasRecord.init : AliasRecord := ⟨[], 400⟩

/-- Result of an operation that mutates the store: either the new store, or
the raised error paired with the store as it stands at the raise. -/
abbrev OpResult := Except (PyErr × AliasRecord) AliasRecord

/-- `self._dict[id]`, as an `Option`: the alias list of the first entry
carrying `id`. -/
def AliasRecord.aliasesOf (r : AliasRecord) (id : Nat) : Option (List Alias) :=
  (r.dict.find? (fun p => p.1 == id)).map Prod.snd

/-- `aliasesOf` with default `[]`, for convenient statements. -/
def AliasRecord.aliasesOfD (r : AliasRecord) (id : Nat) : List Alias :=
  (r.aliasesOf id).getD []

/-- `AliasRecord.id_exists`: `id in self._dict.keys()`. -/
def AliasRecord.id_exists (r : AliasRecord) (id : Nat) : Bool :=
  (r.dict.find? (fun p => p.1 == id)).isSome

/-- `AliasRecord.all_aliases`: the union of all alias sets (as the
concatenation of the alias lists; only membership in it is ever used). -/
def AliasRecord.all_aliases (r : AliasRecord) : List Alias :=
  (r.dict.map Prod.snd).flatten

/-- `alias in self` for a string argument: `__contains__` checks the integer
keys (never equal to a string) and then `all_aliases`. -/
def AliasRecord.containsAlias (r : AliasRecord) (a : Alias) : Bool :=
  r.all_aliases.contains a

/-- `AliasRecord.id_of` for a single alias, as an `Option`: scan `_dict` in
insertion order for the first entity whose alias set holds `a`. -/
def AliasRecord.id_of? (r : AliasRecord) (a : Alias) : Option Nat :=
  (r.dict.find? (fun p => p.2.contains a)).map Prod.fst

/-- `AliasRecord.id_of` for a single alias: raises
`AliasNotFoundException` when no entity holds `a`. -/
def AliasRecord.id_of (r : AliasRecord) (a : Alias) : Except PyErr Nat :=
  match r.id_of? a with
  | some id => .ok id
  | none => .error .aliasNotFound

/-- `AliasRecord._new_id`: hand out `_next_id`, bump the counter, and insert
an entry with an empty alias set. -/
def AliasRecord.new_id (r : AliasRecord) : Nat × AliasRecord :=
  (r.next_id, ⟨r.dict ++ [(r.next_id, [])], r.next_id + 1⟩)

/-- Adding one element to a Python `set` embedded as a duplicate-free list:
append it unless already present. -/
def setInsert (l : List Alias) (a : Alias) : List Alias :=
  if l.contains a then l else l ++ [a]

/-- `set.update(aliases)`: fold `setInsert` over the added aliases. -/
def setUpdate (l : List Alias) (as : List Alias) : List Alias :=
  as.foldl setInsert l

/-- `self._dict[id].update(aliases)`: rewrite the entry carrying `id`. -/
def AliasRecord.updateAt (r : AliasRecord) (id : Nat) (as : List Alias) :
    AliasRecord :=
  ⟨r.dict.map (fun p => if p.1 == id then (p.1, setUpdate p.2 as) else p),
   r.next_id⟩

/-- `AliasRecord.add_at_id` on a list of aliases (the single-string overload
wraps the string in a one-element tuple): assert the ID exists, raise
`ValueError` if some added alias is missing from this entity yet bound to
the store, and otherwise update the entity's set.  All checks precede the
mutation, so the error state is the input state. -/
def AliasRecord.add_at_id (r : AliasRecord) (id : Nat) (as : List Alias) :
    OpResult :=
  if ¬ r.id_exists id then .error (.assertFail, r)
  else if as.any (fun a => !(r.aliasesOfD id).contains a && r.containsAlias a)
    then .error (.aliasExists, r)
  else .ok (r.updateAt id as)

/-- `AliasRecord.add_new_entity` on a single string: raise `ValueError` when
the alias is already recognized, else create a fresh entity and add the
alias at the fresh ID. -/
def AliasRecord.add_new_entity_single (r : AliasRecord) (a : Alias) :
    OpResult :=
  if r.all_aliases.contains a then .error (.aliasExists, r)
  else
    let p := r.new_id
    p.2.add_at_id p.1 [a]

/-- `AliasRecord.add_new_entity` on an iterable: the membership pre-check of
a tuple against a set of strings is vacuous, and the method then calls
itself once per element, so earlier creations persist when a later element
raises. -/
def AliasRecord.add_new_entity_list (r : AliasRecord) :
    List Alias → OpResult
  | [] => .ok r
  | a :: rest =>
    match r.add_new_entity_single a with
    | .error e => .error e
    | .ok r1 => r1.add_new_entity_list rest

/-- Python truthiness of `last_id : int | None`. -/
def truthy : Option Nat → Bool
  | none => false
  | some n => n != 0

/-- The skip test at the top of the `id_together` loop:
`if last_id and alias in self.all_aliases_of(id=last_id): continue`. -/
def skipGuard (r : AliasRecord) (last : Option Nat) (a : Alias) : Bool :=
  match last with
  | some lid => truthy (some lid) && (r.aliasesOfD lid).contains a
  | none => false

def AliasRecord.id_together_loop (r : AliasRecord) :
    List Alias → List Nat → Option Nat → List Nat × Option Nat
  | [], ids, last => (ids, last)
  | a :: rest, ids, last =>
    if skipGuard r last a then
      r.id_together_loop rest ids last
    else
      match r.id_of? a with
      | none => r.id_together_loop rest ids last
      | some id =>
        r.id_together_loop rest
          (if ids.contains id then ids else ids ++ [id]) (some id)

/-- `AliasRecord.id_together`: raise `AliasNotFoundException` when no alias
was found (`if not last_id`), raise `ValueError` when the found IDs
conflict, else return the last found ID. -/
def AliasRecord.id_together (r : AliasRecord) (as : List Alias) :
    Except PyErr Nat :=
  let res := r.id_together_loop as [] none
  if !truthy res.2 then .error .aliasNotFound
  else if 1 < res.1.length then .error .conflictingIds
  else
    match res.2 with
    | some lid => .ok lid
    | none => .error .aliasNotFound

/-- `AliasRecord.add_together`: resolve the aliases with `id_together`;
on `AliasNotFoundException` create a fresh entity when `allow_new` and
re-raise otherwise; any other error propagates; finally add every alias at
the chosen ID. -/
def AliasRecord.add_together (r : AliasRecord) (as : List Alias)
    (allow_new : Bool) : OpResult :=
  match r.id_together as with
  | .ok id => r.add_at_id id as
  | .error .aliasNotFound =>
    if allow_new then
      let p := r.new_id
      p.2.add_at_id p.1 as
    else .error (.aliasNotFound, r)
  | .error e => .error (e, r)

/-- `AliasRecord.all_aliases_of(id=...)`: raise `IdNotFoundException` for an
ID that was never assigned. -/
def AliasRecord.all_aliases_of (r : AliasRecord) (id : Nat) :
    Except PyErr (List Alias) :=
  match r.aliasesOf id with
  | some l => .ok l
  | none => .error .idNotFound

/-- `AliasRecord.best_effort_alias`: among the entity's aliases return the
first one satisfying `rule`; failing that the first alias at all; on an
entity with no aliases the second `next` escapes as `StopIteration`. -/
def AliasRecord.best_effort_alias (r : AliasRecord) (rule : Alias → Bool)
    (id : Nat) : Except PyErr Alias :=
  match r.all_aliases_of id with
  | .error e => .error e
  | .ok opts =>
    match opts.find? rule with
    | some a => .ok a
    | none =>
      match opts with
      | [] => .error .stopIteration
      | a :: _ => .ok a

/-- One row of `AliasRecord.id_of_df`: the row's candidate values (already
converted to strings, in candidate-column priority order) are scanned left
to right for the first one recognized by the store; a miss either creates a
fresh entity (`expect_new_entities`) or raises `AliasNotFoundException`
carrying the row; with `collect_new_aliases` every candidate of the row is
then added at the resolved ID. -/
def AliasRecord.id_of_df_row (r : AliasRecord) (row : List Alias)
    (expect_new collect_new : Bool) :
    Except (PyErr × AliasRecord) (Nat × AliasRecord) :=
  match row.find? r.containsAlias with
  | some a =>
    match r.id_of? a with
    | some id =>
      if collect_new then (r.add_at_id id row).map (fun r1 => (id, r1))
      else .ok (id, r)
    | none => .error (.aliasNotFound, r)
  | none =>
    if expect_new then
      if collect_new then
        ((r.new_id).2.add_at_id (r.new_id).1 row).map
          (fun r1 => ((r.new_id).1, r1))
      else .ok ((r.new_id).1, (r.new_id).2)
    else .error (.aliasNotFound, r)

/-- `AliasRecord.id_of_df` over a table, embedded as the list of its rows'
candidate values: the rows are processed top to bottom against the evolving
store, producing the `id` column; a raise propagates with the store as
mutated by the earlier rows. -/
def AliasRecord.id_of_df (r : AliasRecord) (rows : List (List Alias))
    (expect_new collect_new : Bool) :
    Except (PyErr × AliasRecord) (List Nat × AliasRecord) :=
  match rows with
  | [] => .ok ([], r)
  | row :: rest =>
    match r.id_of_df_row row expect_new collect_new with
    | .error e => .error e
    | .ok (id, r1) =>
      match r1.id_of_df rest expect_new collect_new with
      | .error e => .error e
      | .ok (ids, r2) => .ok (id :: ids, r2)

/-- The apostrophe character, one of the four punctuation characters the
name heuristic always allows. -/
def apost : Char := Char.ofNat 39

/-- The characters `(' ', '-', "'", '.')` that `best_effort_is_name`
accepts outright. -/
def allowedPunct (c : Char) : Bool :=
  c = ' ' || c = '-' || c = apost || c = '.'

/-- `s.index('(')` etc.: position of the first occurrence, if any. -/
def firstIdxOf (l : List Char) (c : Char) : Option Nat :=
  match l with
  | [] => none
  | x :: rest =>
    if x = c then some 0
    else (firstIdxOf rest c).map (· + 1)

/-- `s.rindex(c)` as an option: position of the last occurrence. -/
def lastIdxOf (l : List Char) (c : Char) : Option Nat :=
  match firstIdxOf l.reverse c with
  | none => none
  | some k => some (l.length - 1 - k)

/-- The parenthesis-stripping step of `best_effort_is_name`: when the string
has a `'('` followed later by a `')'`, drop everything from the first `'('`
through the last `')'`. -/
def stripParen (l : List Char) : List Char :=
  match firstIdxOf l '(' with
  | none => l
  | some i =>
    if (l.drop (i + 1)).contains ')' then
      match lastIdxOf l ')' with
      | some j => l.take i ++ l.drop (j + 1)
      | none => l
    else l

/-- Python `str.split(' ')` on a character list: split at every single
space, keeping empty pieces. -/
def splitSpace : List Char → List (List Char)
  | [] => [[]]
  | c :: rest =>
    let r := splitSpace rest
    if c = ' ' then [] :: r
    else
      match r with
      | [] => [[c]]
      | w :: ws => (c :: w) :: ws

/-- A character that satisfies the "required capitalized word" test of
`best_effort_is_name`: uppercase, or not alphabetic at all. -/
def capLike (c : Char) : Bool := c.isUpper || !c.isAlpha

/-- `best_effort_is_name`: strip one parenthesized suffix, reject on any
digit or comma, then require at least two space-separated words with the
first or the last containing an uppercase or non-alphabetic character. -/
def best_effort_is_name (s : String) : Bool :=
  let t := stripParen s.data
  if t.any (fun c => c.isDigit || c = ',') then false
  else
    let words := splitSpace t
    let is_full_name := decide (2 ≤ words.length)
    let is_required_capitalized :=
      [words.headD [], words.getLastD []].any (fun w => w.any capLike)
    is_full_name && is_required_capitalized

/-- `unmatched_alias_list[0]`: raises `IndexError` on an empty sequence. -/
def headE : List Alias → Except PyErr Alias
  | [] => .error .indexError
  | a :: _ => .ok a

/-- `get_unmatched_entities`: split the destination alias groups by whether
any of their aliases is registered; reduce the unmatched groups to their
first alias; resolve each matched group with `id_together`; keep the input
IDs not equal to any matched-group ID and label them with
`best_effort_alias` under the name heuristic.  The result pairs the input
labels with the destination labels. -/
def get_unmatched_entities (r : AliasRecord) (input_ids : List Nat)
    (dest : List (List Alias)) : Except PyErr (List Alias × List Alias) :=
  match (dest.filter (fun g => !g.any r.containsAlias)).mapM headE with
  | .error e => .error e
  | .ok unmatched_dest_names =>
    match (dest.filter (fun g => g.any r.containsAlias)).mapM
        r.id_together with
    | .error e => .error e
    | .ok matched_dest_ids =>
      match (input_ids.filter
          (fun i => !matched_dest_ids.contains i)).mapM
          (r.best_effort_alias best_effort_is_name) with
      | .error e => .error e
      | .ok unmatched_input_names =>
        .ok (unmatched_input_names, unmatched_dest_names)

/-- The merging loop of `associate_unrecognized_entities`: for every pair
the matcher returned, `add_together((input_name, dest_name),
allow_new=False)`, in order, stopping at the first raise. -/
def associate_pairs (r : AliasRecord) :
    List (Alias × Alias) → OpResult
  | [] => .ok r
  | (i, d) :: rest =>
    match r.add_together [i, d] false with
    | .error e => .error e
    | .ok r1 => associate_pairs r1 rest

/-- `associate_unrecognized_entities`: compute the unmatched labels, hand
them to the injected matcher (modelled as a function to the list of matched
pairs in iteration order), and merge every returned pair. -/
def associate_unrecognized_entities (r : AliasRecord)
    (matcher : List Alias → List Alias → List (Alias × Alias))
    (input_ids : List Nat) (dest : List (List Alias)) : OpResult :=
  match get_unmatched_entities r input_ids dest with
  | .error e => .error (e, r)
  | .ok (ins, ds) => associate_pairs r (matcher ins ds)

/-- A pandas `DataFrame` as `reindex_by_id` sees it: the candidate values
of each row (stringified, in candidate-column priority order) and the
current index, `none` until an entity-ID index is set. -/
structure PyTable where
  data : List (List Alias)
  idx : Option (List Nat)
deriving Repr, DecidableEq

/-- `df.set_index(new_index, verify_integrity=True, inplace=True)`: install
the derived ID column as the index, raising when the IDs are not unique. -/
def set_index_by (t : PyTable) (ids : List Nat) : Except PyErr PyTable :=
  if ids.Nodup then .ok { t with idx := some ids } else .error .dupIndex

/-- `AliasRecord.reindex_by_id`, with Python object identity made explicit:
tables live on a heap of table objects and the caller passes a reference.
`inplace=True` first rebinds the local `df` to a fresh copy; the
`set_index(…, inplace=True)` then mutates whichever object `df` denotes,
and that same reference is returned. -/
def AliasRecord.reindex_by_id (r : AliasRecord) (heap : List PyTable)
    (dfRef : Nat) (expect_new collect_new inplace : Bool) :
    Except PyErr (AliasRecord × List PyTable × Nat) :=
  match heap[dfRef]? with
  | none => .error .idNotFound
  | some t0 =>
    match r.id_of_df t0.data expect_new collect_new with
    | .error e => .error e.1
    | .ok (ids, r1) =>
      match set_index_by t0 ids with
      | .error e => .error e
      | .ok t1 =>
        .ok (r1,
          (if inplace then heap ++ [t0] else heap).set
            (if inplace then heap.length else dfRef) t1,
          if inplace then heap.length else dfRef)

/-- The keys of `_dict` in insertion order are exactly
`400, 401, …, _next_id - 1`: IDs are handed out consecutively from 400 and
each becomes one entry. -/
def keysOk (r : AliasRecord) : Prop :=
  r.next_id = 400 + r.dict.length ∧
  r.dict.map Prod.fst = List.range' 400 r.dict.length

/-- Distinct entities hold disjoint alias sets. -/
def disjointOk (r : AliasRecord) : Prop :=
  ∀ p ∈ r.dict, ∀ q ∈ r.dict, p.1 ≠ q.1 → ∀ a, a ∈ p.2 → a ∉ q.2

/-- Each embedded alias set is duplicate-free (it stands for a `set`). -/
def nodupOk (r : AliasRecord) : Prop :=
  ∀ p ∈ r.dict, p.2.Nodup

/-- The store invariant. -/
def Wf (r : AliasRecord) : Prop := keysOk r ∧ disjointOk r ∧ nodupOk r

instance (r : AliasRecord) : Decidable (keysOk r) := by
  unfold keysOk
  infer_instance

instance (r : AliasRecord) : Decidable (disjointOk r) := by
  unfold disjointOk
  infer_instance

instance (r : AliasRecord) : Decidable (nodupOk r) := by
  unfold nodupOk
  infer_instance

instance (r : AliasRecord) : Decidable (Wf r) := by
  unfold Wf
  infer_instance

/-- The stores reachable from `AliasRecord()` by successful public
operations: `add_new_entity` (either overload), `add_at_id`,
`add_together`, `id_of_df`, and `associate_unrecognized_entities` with an
arbitrary matcher. -/
inductive Reachable : AliasRecord → Prop where
  | init : Reachable AliasRecord.init
  | add_new_single {r r1 : AliasRecord} {a : Alias} :
      Reachable r → r.add_new_entity_single a = .ok r1 → Reachable r1
  | add_new_list {r r1 : AliasRecord} {as : List Alias} :
      Reachable r → r.add_new_entity_list as = .ok r1 → Reachable r1
  | add_at {r r1 : AliasRecord} {id : Nat} {as : List Alias} :
      Reachable r → r.add_at_id id as = .ok r1 → Reachable r1
  | add_tog {r r1 : AliasRecord} {as : List Alias} {b : Bool} :
      Reachable r → r.add_together as b = .ok r1 → Reachable r1
  | by_df {r r1 : AliasRecord} {rows : List (List Alias)} {e c : Bool}
      {ids : List Nat} :
      Reachable r → r.id_of_df rows e c = .ok (ids, r1) → Reachable r1
  | assoc {r r1 : AliasRecord}
      {m : List Alias → List Alias → List (Alias × Alias)}
      {input_ids : List Nat} {dest : List (List Alias)} :
      Reachable r →
      associate_unrecognized_entities r m input_ids dest = .ok r1 →
      Reachable r1

/-- The entities `add_new_entity` creates for a collection: one per
element, consecutive IDs from `n`, each holding exactly its element. -/
def freshEntities (n : Nat) : List Alias → List (Nat × List Alias)
  | [] => []
  | a :: rest => (n, [a]) :: freshEntities (n + 1) rest

/-- The result of `best_effort_alias` as a function of the entity's alias
list alone. -/
def bestEffortSpec (rule : Alias → Bool) (l : List Alias) :
    Except PyErr Alias :=
  match l.find? rule with
  | some a => .ok a
  | none =>
    match l with
    | [] => .error .stopIteration
    | a :: _ => .ok a

/-- The claim's reading of the rule, requiring the first word AND the last
word each to contain an uppercase or non-alphabetic character. -/
def claimed_is_name (s : String) : Prop :=
  (¬ ∃ c ∈ stripParen s.data, c.isDigit = true ∨ c = ',') ∧
  2 ≤ (splitSpace (stripParen s.data)).length ∧
  (∃ c ∈ (splitSpace (stripParen s.data)).headD [],
    c.isUpper = true ∨ c.isAlpha = false) ∧
  (∃ c ∈ (splitSpace (stripParen s.data)).getLastD [],
    c.isUpper = true ∨ c.isAlpha = false)

/-- The code's actual rule: only one of the first and last word needs an
uppercase or non-alphabetic character. -/
def amended_is_name (s : String) : Prop :=
  (¬ ∃ c ∈ stripParen s.data, c.isDigit = true ∨ c = ',') ∧
  2 ≤ (splitSpace (stripParen s.data)).length ∧
  ((∃ c ∈ (splitSpace (stripParen s.data)).headD [],
    c.isUpper = true ∨ c.isAlpha = false) ∨
   (∃ c ∈ (splitSpace (stripParen s.data)).getLastD [],
    c.isUpper = true ∨ c.isAlpha = false))

instance (s : String) : Decidable (claimed_is_name s) := by
  unfold claimed_is_name
  infer_instance

instance (s : String) : Decidable (amended_is_name s) := by
  unfold amended_is_name
  infer_instance

/-- The entity a matched destination group resolves to: the ID of its
first recognized alias. -/
def resolveD (r : AliasRecord) (g : List Alias) : Nat :=
  (g.filterMap r.id_of?).headD 0

/-- The label `best_effort_alias` produces under the name rule, totalized
with a default for the error case. -/
def bestEffortD (r : AliasRecord) (i : Nat) : Alias :=
  match r.best_effort_alias best_effort_is_name i with
  | .ok a => a
  | .error _ => ""

-- Sanity checks against the doctests and unit tests of the source.
example : AliasRecord.init.add_new_entity_single "test" =
    .ok ⟨[(400, ["test"])], 401⟩ := rfl
example : (AliasRecord.init.add_together ["alias1", "alias2"] true) =
    .ok ⟨[(400, ["alias1", "alias2"])], 401⟩ := rfl
example : (AliasRecord.init.add_together ["x"] false) =
    .error (.aliasNotFound, AliasRecord.init) := rfl
example :
    (⟨[(400, ["a1"]), (401, ["a2"])], 402⟩ : AliasRecord).add_together
      ["a1", "a2"] true = .error (.conflictingIds, ⟨[(400, ["a1"]), (401, ["a2"])], 402⟩) := rfl
example : AliasRecord.init.add_new_entity_list ["alias1", "alias2"] =
    .ok ⟨[(400, ["alias1"]), (401, ["alias2"])], 402⟩ := rfl
example : (⟨[(400, ["a"])], 401⟩ : AliasRecord).id_of? "a" = some 400 := rfl
example : (AliasRecord.init.add_together [] true) =
    .ok ⟨[(400, [])], 401⟩ := rfl

-- Sanity checks against the source doctests.
example : best_effort_is_name "Name One (copy 1)" = true := by decide
example : best_effort_is_name "Name One (copy 2)" = true := by decide
example : best_effort_is_name "name1" = false := by decide
example : best_effort_is_name "1" = false := by decide
example : best_effort_is_name "Student One" = true := by decide
example : best_effort_is_name "student1" = false := by decide
example :
    (⟨[(400, ["student@gmail.com", "Student Name"])], 401⟩ :
      AliasRecord).id_of_df [["name1", "Student Name"]] false true =
    .ok ([400],
      ⟨[(400, ["student@gmail.com", "Student Name", "name1"])], 401⟩) := rfl
example :
    get_unmatched_entities
      (⟨[(400, ["student@mail.com"])], 401⟩ : AliasRecord)
      [400] [["Name One (copy 1)"]] =
    .ok (["student@mail.com"], ["Name One (copy 1)"]) := rfl

-- ### Basic lemmas about the embedded set operations

theorem mem_setInsert {l : List Alias} {a b : Alias} :
    b ∈ setInsert l a ↔ b ∈ l ∨ b = a := by
  unfold setInsert
  by_cases h : a ∈ l
  · rw [if_pos (List.elem_iff.mpr h)]
    constructor
    · exact Or.inl
    · rintro (hb | rfl) <;> [exact hb; exact h]
  · rw [if_neg (fun hc => h (List.elem_iff.mp hc))]
    simp [List.mem_append]

theorem setInsert_nodup {l : List Alias} {a : Alias} (h : l.Nodup) :
    (setInsert l a).Nodup := by
  unfold setInsert
  by_cases hc : a ∈ l
  · rw [if_pos (List.elem_iff.mpr hc)]; exact h
  · rw [if_neg (fun hcc => hc (List.elem_iff.mp hcc))]
    refine List.Nodup.append h (List.nodup_singleton a) ?_
    intro x hx hxa
    rw [List.mem_singleton] at hxa
    subst hxa
    exact hc hx

theorem mem_setUpdate {l as : List Alias} {b : Alias} :
    b ∈ setUpdate l as ↔ b ∈ l ∨ b ∈ as := by
  induction as generalizing l with
  | nil => simp [setUpdate]
  | cons a rest ih =>
    show b ∈ setUpdate (setInsert l a) rest ↔ _
    rw [ih, mem_setInsert]
    simp [or_assoc]

theorem setUpdate_nodup {l as : List Alias} (h : l.Nodup) :
    (setUpdate l as).Nodup := by
  induction as generalizing l with
  | nil => exact h
  | cons a rest ih => exact ih (setInsert_nodup h)

theorem containsAlias_iff {r : AliasRecord} {a : Alias} :
    r.containsAlias a = true ↔ ∃ p ∈ r.dict, a ∈ p.2 := by
  unfold AliasRecord.containsAlias AliasRecord.all_aliases
  rw [List.elem_iff, List.mem_flatten]
  constructor
  · rintro ⟨s, hs, ha⟩
    obtain ⟨p, hp, rfl⟩ := List.mem_map.mp hs
    exact ⟨p, hp, ha⟩
  · rintro ⟨p, hp, ha⟩
    exact ⟨p.2, List.mem_map.mpr ⟨p, hp, rfl⟩, ha⟩

theorem id_of?_some {r : AliasRecord} {a : Alias} {id : Nat}
    (h : r.id_of? a = some id) : ∃ l, (id, l) ∈ r.dict ∧ a ∈ l := by
  unfold AliasRecord.id_of? at h
  obtain ⟨⟨p1, p2⟩, hp, h1⟩ := Option.map_eq_some'.mp h
  cases h1
  have hpa : p2.contains a = true := by simpa using List.find?_some hp
  exact ⟨p2, List.mem_of_find?_eq_some hp, List.elem_iff.mp hpa⟩

theorem id_of?_eq_none {r : AliasRecord} {a : Alias} :
    r.id_of? a = none ↔ r.containsAlias a = false := by
  unfold AliasRecord.id_of?
  rw [Option.map_eq_none', List.find?_eq_none]
  constructor
  · intro h
    rw [← Bool.not_eq_true, containsAlias_iff]
    rintro ⟨p, hp, ha⟩
    exact h p hp (by simpa using List.elem_iff.mpr ha)
  · intro h p hp hc
    rw [← Bool.not_eq_true, containsAlias_iff] at h
    exact h ⟨p, hp, List.elem_iff.mp (by simpa using hc)⟩

theorem id_of?_isSome {r : AliasRecord} {a : Alias}
    (h : r.containsAlias a = true) : ∃ id, r.id_of? a = some id := by
  cases hio : r.id_of? a with
  | none => rw [id_of?_eq_none.mp hio] at h; cases h
  | some id => exact ⟨id, rfl⟩

theorem id_exists_iff {r : AliasRecord} {id : Nat} :
    r.id_exists id = true ↔ ∃ l, (id, l) ∈ r.dict := by
  unfold AliasRecord.id_exists
  rw [Option.isSome_iff_exists]
  constructor
  · rintro ⟨⟨p1, p2⟩, hp⟩
    have hmem := List.mem_of_find?_eq_some hp
    have hkey : p1 = id := by simpa using List.find?_some hp
    subst hkey
    exact ⟨p2, hmem⟩
  · rintro ⟨l, hl⟩
    cases hf : r.dict.find? (fun p => p.1 == id) with
    | none =>
      have := List.find?_eq_none.mp hf (id, l) hl
      simp at this
    | some p => exact ⟨p, rfl⟩

theorem aliasesOf_mem {r : AliasRecord} {id : Nat} {l : List Alias}
    (h : r.aliasesOf id = some l) : (id, l) ∈ r.dict := by
  unfold AliasRecord.aliasesOf at h
  obtain ⟨⟨p1, p2⟩, hp, h1⟩ := Option.map_eq_some'.mp h
  cases h1
  have hkey : p1 = id := by simpa using List.find?_some hp
  subst hkey
  exact List.mem_of_find?_eq_some hp

-- ### Keys, uniqueness, and the shape of `updateAt`

/-- With duplicate-free keys, an ID determines its entry. -/
theorem entry_unique {d : List (Nat × List Alias)} {id : Nat}
    {l l' : List Alias} (hnd : (d.map Prod.fst).Nodup)
    (h1 : (id, l) ∈ d) (h2 : (id, l') ∈ d) : l = l' := by
  induction d with
  | nil => cases h1
  | cons p rest ih =>
    rw [List.map_cons, List.nodup_cons] at hnd
    rcases List.mem_cons.mp h1 with he1 | hm1 <;>
      rcases List.mem_cons.mp h2 with he2 | hm2
    · rw [← he2] at he1; exact (Prod.mk.injEq _ _ _ _).mp he1 |>.2
    · exfalso
      apply hnd.1
      rw [← he1]
      exact List.mem_map.mpr ⟨(id, l'), hm2, rfl⟩
    · exfalso
      apply hnd.1
      rw [← he2]
      exact List.mem_map.mpr ⟨(id, l), hm1, rfl⟩
    · exact ih hnd.2 hm1 hm2

theorem keysOk_nodup {r : AliasRecord} (h : keysOk r) :
    (r.dict.map Prod.fst).Nodup := by
  rw [h.2]
  exact List.nodup_range' 400 r.dict.length 1 (by norm_num)

theorem keysOk_lt {r : AliasRecord} (h : keysOk r) {p : Nat × List Alias}
    (hp : p ∈ r.dict) : 400 ≤ p.1 ∧ p.1 < r.next_id := by
  have hk : p.1 ∈ r.dict.map Prod.fst := List.mem_map.mpr ⟨p, hp, rfl⟩
  rw [h.2] at hk
  have h1 := h.1
  have := List.mem_range'_1.mp hk
  exact ⟨this.1, by omega⟩

theorem aliasesOf_of_mem {r : AliasRecord} {id : Nat} {l : List Alias}
    (hnd : (r.dict.map Prod.fst).Nodup) (h : (id, l) ∈ r.dict) :
    r.aliasesOf id = some l := by
  unfold AliasRecord.aliasesOf
  cases hf : r.dict.find? (fun p => p.1 == id) with
  | none =>
    have := List.find?_eq_none.mp hf (id, l) h
    simp at this
  | some p =>
    obtain ⟨p1, p2⟩ := p
    have hkey : p1 = id := by simpa using List.find?_some hf
    subst hkey
    have : p2 = l := entry_unique hnd (List.mem_of_find?_eq_some hf) h
    simp [this]

/-- With disjoint alias sets and duplicate-free keys, holding an alias
pins down `id_of?`. -/
theorem id_of?_of_mem {r : AliasRecord} {id : Nat} {l : List Alias}
    {a : Alias} (hd : disjointOk r) (hmem : (id, l) ∈ r.dict) (ha : a ∈ l) :
    r.id_of? a = some id := by
  cases hio : r.id_of? a with
  | none =>
    rw [id_of?_eq_none] at hio
    have : r.containsAlias a = true :=
      containsAlias_iff.mpr ⟨(id, l), hmem, ha⟩
    rw [hio] at this; cases this
  | some j =>
    obtain ⟨l', hmem', ha'⟩ := id_of?_some hio
    by_cases hij : j = id
    · rw [hij]
    · exact absurd ha' (hd (id, l) hmem (j, l') hmem' (fun he => hij he.symm) a ha)

theorem updateAt_next {r : AliasRecord} {id : Nat} {as : List Alias} :
    (r.updateAt id as).next_id = r.next_id := rfl

theorem updateAt_keys {r : AliasRecord} {id : Nat} {as : List Alias} :
    (r.updateAt id as).dict.map Prod.fst = r.dict.map Prod.fst := by
  unfold AliasRecord.updateAt
  rw [List.map_map]
  apply List.map_congr_left
  intro p _
  by_cases h : p.1 = id <;> simp [h]

theorem mem_updateAt {r : AliasRecord} {id : Nat} {as : List Alias}
    {q : Nat × List Alias} :
    q ∈ (r.updateAt id as).dict ↔
      ∃ p ∈ r.dict, q = if p.1 = id then (p.1, setUpdate p.2 as) else p := by
  unfold AliasRecord.updateAt
  rw [List.mem_map]
  constructor
  · rintro ⟨p, hp, h⟩
    refine ⟨p, hp, ?_⟩
    by_cases hc : p.1 = id
    · rw [if_pos hc, ← h, if_pos (beq_iff_eq.mpr hc)]
    · rw [if_neg hc, ← h, if_neg (by simpa using hc)]
  · rintro ⟨p, hp, h⟩
    refine ⟨p, hp, ?_⟩
    by_cases hc : p.1 = id
    · rw [if_pos (beq_iff_eq.mpr hc), h, if_pos hc]
    · rw [if_neg (by simpa using hc), h, if_neg hc]

-- ### The invariant and its preservation

theorem aliasesOfD_of_mem {r : AliasRecord} {id : Nat} {l : List Alias}
    (hnd : (r.dict.map Prod.fst).Nodup) (h : (id, l) ∈ r.dict) :
    r.aliasesOfD id = l := by
  unfold AliasRecord.aliasesOfD
  rw [aliasesOf_of_mem hnd h]
  rfl

/-- Success of `add_at_id`, decomposed: the result is `updateAt`, the ID is
live, and every added alias is either already this entity's or nowhere. -/
theorem add_at_id_ok {r r1 : AliasRecord} {id : Nat} {as : List Alias}
    (h : r.add_at_id id as = .ok r1) :
    r1 = r.updateAt id as ∧ r.id_exists id = true ∧
      ∀ a ∈ as, a ∈ r.aliasesOfD id ∨ r.containsAlias a = false := by
  unfold AliasRecord.add_at_id at h
  by_cases he : r.id_exists id
  · rw [if_neg (by simpa using he)] at h
    by_cases hg :
        as.any (fun a => !(r.aliasesOfD id).contains a && r.containsAlias a)
    · rw [if_pos hg] at h; cases h
    · rw [if_neg hg] at h
      refine ⟨by injection h with h1; exact h1.symm, he, ?_⟩
      intro a ha
      have hga : ¬ ((!(r.aliasesOfD id).contains a && r.containsAlias a) = true) := by
        rw [List.any_eq_true] at hg
        push_neg at hg
        exact hg a ha
      by_cases hm : a ∈ r.aliasesOfD id
      · exact Or.inl hm
      · right
        cases hca : r.containsAlias a with
        | false => rfl
        | true =>
          exfalso
          apply hga
          have hcont : (r.aliasesOfD id).contains a = false := by
            rw [← Bool.not_eq_true]
            intro hc
            exact hm (List.elem_iff.mp hc)
          rw [hcont, hca]
          rfl
  · rw [if_pos (by simpa using he)] at h; cases h

theorem add_at_id_error {r s : AliasRecord} {id : Nat} {as : List Alias}
    {e : PyErr} (h : r.add_at_id id as = .error (e, s)) : s = r := by
  unfold AliasRecord.add_at_id at h
  by_cases he : r.id_exists id
  · rw [if_neg (by simpa using he)] at h
    by_cases hg :
        as.any (fun a => !(r.aliasesOfD id).contains a && r.containsAlias a)
    · rw [if_pos hg] at h
      injection h with h1
      exact ((Prod.mk.injEq _ _ _ _).mp h1).2.symm
    · rw [if_neg hg] at h; cases h
  · rw [if_pos (by simpa using he)] at h
    injection h with h1
    exact ((Prod.mk.injEq _ _ _ _).mp h1).2.symm

theorem Wf_init : Wf AliasRecord.init := by
  refine ⟨⟨rfl, rfl⟩, ?_, ?_⟩
  · intro p hp; cases hp
  · intro p hp; cases hp

theorem new_id_keys (r : AliasRecord) :
    (r.new_id).2.dict.map Prod.fst = r.dict.map Prod.fst ++ [r.next_id] := by
  show (r.dict ++ [(r.next_id, [])]).map Prod.fst = _
  rw [List.map_append]
  rfl

theorem new_id_len (r : AliasRecord) :
    (r.new_id).2.dict.length = r.dict.length + 1 := by
  show (r.dict ++ [(r.next_id, [])]).length = _
  rw [List.length_append]
  rfl

theorem Wf_new_id {r : AliasRecord} (h : Wf r) : Wf (r.new_id).2 := by
  obtain ⟨⟨hk1, hk2⟩, hd, hn⟩ := h
  refine ⟨⟨?_, ?_⟩, ?_, ?_⟩
  · show r.next_id + 1 = _
    rw [new_id_len]
    omega
  · rw [new_id_keys, new_id_len, hk2, hk1]
    have := @List.range'_concat 1 400 r.dict.length
    simp only [one_mul] at this
    rw [← this]
  · intro p hp q hq hne a hap
    rcases List.mem_append.mp hp with hp | hp <;>
      rcases List.mem_append.mp hq with hq | hq
    · exact hd p hp q hq hne a hap
    · rw [List.mem_singleton] at hq
      subst hq
      simp
    · rw [List.mem_singleton] at hp
      rw [hp] at hap
      cases hap
    · rw [List.mem_singleton] at hp
      rw [hp] at hap
      cases hap
  · intro p hp
    rcases List.mem_append.mp hp with hp | hp
    · exact hn p hp
    · rw [List.mem_singleton] at hp
      subst hp
      exact List.nodup_nil

theorem updateAt_len {r : AliasRecord} {id : Nat} {as : List Alias} :
    (r.updateAt id as).dict.length = r.dict.length := by
  have h1 := congrArg List.length (@updateAt_keys r id as)
  simpa using h1

theorem Wf_add_at_id {r r1 : AliasRecord} {id : Nat} {as : List Alias}
    (hw : Wf r) (h : r.add_at_id id as = .ok r1) : Wf r1 := by
  obtain ⟨heq, hex, hguard⟩ := add_at_id_ok h
  subst heq
  obtain ⟨hk, hd, hn⟩ := hw
  have hnd := keysOk_nodup hk
  refine ⟨⟨?_, ?_⟩, ?_, ?_⟩
  · rw [updateAt_next, updateAt_len]
    exact hk.1
  · rw [updateAt_keys, updateAt_len]
    exact hk.2
  · intro p' hp' q' hq' hne a hap'
    obtain ⟨p, hp, hpe⟩ := mem_updateAt.mp hp'
    obtain ⟨q, hq, hqe⟩ := mem_updateAt.mp hq'
    by_cases hpc : p.1 = id <;> by_cases hqc : q.1 = id
    · rw [hpe, if_pos hpc, hqe, if_pos hqc] at hne
      exact absurd (hpc.trans hqc.symm) (by simpa using hne)
    · -- p' is the updated entity, q' untouched
      rw [hpe, if_pos hpc] at hap'
      rw [hqe, if_neg hqc]
      simp only at hap'
      have hfst : (id, p.2) ∈ r.dict := by rw [← hpc]; exact hp
      have haod : r.aliasesOfD id = p.2 := aliasesOfD_of_mem hnd hfst
      have hne2 : p.1 ≠ q.1 := by rw [hpc]; exact fun hh => hqc hh.symm
      rcases mem_setUpdate.mp hap' with hin | hin
      · exact hd p hp q hq hne2 a hin
      · rcases hguard a hin with hmem | hnc
        · rw [haod] at hmem
          exact hd p hp q hq hne2 a hmem
        · intro hin2
          have : r.containsAlias a = true :=
            containsAlias_iff.mpr ⟨q, hq, hin2⟩
          rw [hnc] at this; cases this
    · -- q' is the updated entity, p' untouched
      rw [hpe, if_neg hpc] at hap'
      rw [hqe, if_pos hqc]
      simp only
      intro hin2
      have hfst : (id, q.2) ∈ r.dict := by rw [← hqc]; exact hq
      have haod : r.aliasesOfD id = q.2 := aliasesOfD_of_mem hnd hfst
      have hne2 : p.1 ≠ q.1 := fun hh => hpc (hh ▸ hqc)
      rcases mem_setUpdate.mp hin2 with hin | hin
      · exact hd p hp q hq hne2 a hap' hin
      · rcases hguard a hin with hmem | hnc
        · rw [haod] at hmem
          exact hd p hp q hq hne2 a hap' hmem
        · have : r.containsAlias a = true :=
            containsAlias_iff.mpr ⟨p, hp, hap'⟩
          rw [hnc] at this; cases this
    · rw [hpe, if_neg hpc] at hap'
      rw [hqe, if_neg hqc]
      refine hd p hp q hq ?_ a hap'
      rw [hpe, if_neg hpc, hqe, if_neg hqc] at hne
      exact hne
  · intro p' hp'
    obtain ⟨p, hp, hpe⟩ := mem_updateAt.mp hp'
    by_cases hpc : p.1 = id
    · rw [hpe, if_pos hpc]
      exact setUpdate_nodup (hn p hp)
    · rw [hpe, if_neg hpc]
      exact hn p hp

theorem except_map_ok {α β γ : Type} {f : α → β} {x : Except γ α} {b : β}
    (h : x.map f = .ok b) : ∃ a, x = .ok a ∧ f a = b := by
  cases x with
  | ok a =>
    refine ⟨a, rfl, ?_⟩
    simpa [Except.map] using h
  | error e => simp [Except.map] at h

theorem except_map_error {α β γ : Type} {f : α → β} {x : Except γ α}
    {e : γ} (h : x.map f = .error e) : x = .error e := by
  cases x with
  | ok a => simp [Except.map] at h
  | error e2 =>
    simpa [Except.map] using h

theorem Wf_add_new_single {r r1 : AliasRecord} {a : Alias} (hw : Wf r)
    (h : r.add_new_entity_single a = .ok r1) : Wf r1 := by
  unfold AliasRecord.add_new_entity_single at h
  by_cases hc : r.all_aliases.contains a
  · rw [if_pos hc] at h; cases h
  · rw [if_neg hc] at h
    exact Wf_add_at_id (Wf_new_id hw) h

theorem Wf_add_new_list {r r1 : AliasRecord} {as : List Alias} (hw : Wf r)
    (h : r.add_new_entity_list as = .ok r1) : Wf r1 := by
  induction as generalizing r with
  | nil =>
    unfold AliasRecord.add_new_entity_list at h
    injection h with h1
    rw [← h1]
    exact hw
  | cons a rest ih =>
    unfold AliasRecord.add_new_entity_list at h
    cases hs : r.add_new_entity_single a with
    | error e => rw [hs] at h; cases h
    | ok r2 =>
      rw [hs] at h
      exact ih (Wf_add_new_single hw hs) h

theorem Wf_add_together {r r1 : AliasRecord} {as : List Alias} {b : Bool}
    (hw : Wf r) (h : r.add_together as b = .ok r1) : Wf r1 := by
  unfold AliasRecord.add_together at h
  cases hit : r.id_together as with
  | ok id =>
    rw [hit] at h
    exact Wf_add_at_id hw h
  | error e =>
    rw [hit] at h
    cases e with
    | aliasNotFound =>
      by_cases hb : b
      · rw [if_pos hb] at h
        exact Wf_add_at_id (Wf_new_id hw) h
      · rw [if_neg hb] at h; cases h
    | idNotFound => cases h
    | aliasExists => cases h
    | conflictingIds => cases h
    | stopIteration => cases h
    | indexError => cases h
    | assertFail => cases h
    | dupIndex => cases h

theorem Wf_id_of_df_row {r r1 : AliasRecord} {row : List Alias}
    {e c : Bool} {id : Nat} (hw : Wf r)
    (h : r.id_of_df_row row e c = .ok (id, r1)) : Wf r1 := by
  unfold AliasRecord.id_of_df_row at h
  split at h
  · -- a recognized candidate was found
    split at h
    · split at h
      · obtain ⟨r2, hadd, hfe⟩ := except_map_ok h
        rw [← ((Prod.mk.injEq _ _ _ _).mp hfe).2]
        exact Wf_add_at_id hw hadd
      · injection h with h1
        rw [← ((Prod.mk.injEq _ _ _ _).mp h1).2]
        exact hw
    · cases h
  · -- no recognized candidate
    split at h
    · split at h
      · obtain ⟨r2, hadd, hfe⟩ := except_map_ok h
        rw [← ((Prod.mk.injEq _ _ _ _).mp hfe).2]
        exact Wf_add_at_id (Wf_new_id hw) hadd
      · injection h with h1
        rw [← ((Prod.mk.injEq _ _ _ _).mp h1).2]
        exact Wf_new_id hw
    · cases h

theorem Wf_id_of_df {r r1 : AliasRecord} {rows : List (List Alias)}
    {e c : Bool} {ids : List Nat} (hw : Wf r)
    (h : r.id_of_df rows e c = .ok (ids, r1)) : Wf r1 := by
  induction rows generalizing r ids with
  | nil =>
    unfold AliasRecord.id_of_df at h
    injection h with h1
    rw [← ((Prod.mk.injEq _ _ _ _).mp h1).2]
    exact hw
  | cons row rest ih =>
    unfold AliasRecord.id_of_df at h
    split at h
    · cases h
    · rename_i id1 r2 heq
      split at h
      · cases h
      · rename_i p2 ids2 r3 heq2
        injection h with h1
        have hw2 : Wf r2 := Wf_id_of_df_row hw heq
        have h2 : r3 = r1 := ((Prod.mk.injEq _ _ _ _).mp h1).2
        rw [h2] at heq2
        exact ih hw2 heq2

theorem Wf_associate_pairs {r r1 : AliasRecord}
    {ps : List (Alias × Alias)} (hw : Wf r)
    (h : associate_pairs r ps = .ok r1) : Wf r1 := by
  induction ps generalizing r with
  | nil =>
    unfold associate_pairs at h
    injection h with h1
    rw [← h1]
    exact hw
  | cons p rest ih =>
    unfold associate_pairs at h
    cases hs : r.add_together [p.1, p.2] false with
    | error e => rw [hs] at h; cases h
    | ok r2 =>
      rw [hs] at h
      exact ih (Wf_add_together hw hs) h

theorem Wf_associate {r r1 : AliasRecord}
    {m : List Alias → List Alias → List (Alias × Alias)}
    {input_ids : List Nat} {dest : List (List Alias)} (hw : Wf r)
    (h : associate_unrecognized_entities r m input_ids dest = .ok r1) :
    Wf r1 := by
  unfold associate_unrecognized_entities at h
  cases hg : get_unmatched_entities r input_ids dest with
  | error e => rw [hg] at h; cases h
  | ok p =>
    rw [hg] at h
    exact Wf_associate_pairs hw h

/-- Every store reachable by successful public operations satisfies the
invariant. -/
theorem reachable_wf {r : AliasRecord} (h : Reachable r) : Wf r := by
  induction h with
  | init => exact Wf_init
  | add_new_single _ hop ih => exact Wf_add_new_single ih hop
  | add_new_list _ hop ih => exact Wf_add_new_list ih hop
  | add_at _ hop ih => exact Wf_add_at_id ih hop
  | add_tog _ hop ih => exact Wf_add_together ih hop
  | by_df _ hop ih => exact Wf_id_of_df ih hop
  | assoc _ hop ih => exact Wf_associate ih hop

-- ### Claims C1 and C5

/-- C1: in every store reachable from `AliasRecord()` by successful public
operations (`add_new_entity`, `add_at_id`, `add_together`, `id_of_df`,
`associate_unrecognized_entities`), every alias belongs to at most one
entity: two entries holding the same alias have the same ID, and `id_of`
of an alias held by an entity returns exactly that entity's ID. -/
theorem claim_c1_alias_uniqueness {r : AliasRecord} (h : Reachable r) :
    (∀ a id1 id2 l1 l2, (id1, l1) ∈ r.dict → (id2, l2) ∈ r.dict →
      a ∈ l1 → a ∈ l2 → id1 = id2) ∧
    (∀ a id l, (id, l) ∈ r.dict → a ∈ l → r.id_of? a = some id) := by
  have hw := reachable_wf h
  constructor
  · intro a id1 id2 l1 l2 h1 h2 ha1 ha2
    by_contra hne
    exact hw.2.1 (id1, l1) h1 (id2, l2) h2 hne a ha1 ha2
  · intro a id l hmem ha
    exact id_of?_of_mem hw.2.1 hmem ha

/-- Witness for C1: the store `{400: {"x"}, 401: {"y"}}` obtained by
`add_new_entity(("x", "y"))` is reachable, and the theorem applies to it. -/
theorem claim_c1_witness :
    (400 : Nat) = 400 ∧
    (⟨[(400, ["x"]), (401, ["y"])], 402⟩ : AliasRecord).id_of? "x" =
      some 400 := by
  have hr : Reachable ⟨[(400, ["x"]), (401, ["y"])], 402⟩ :=
    @Reachable.add_new_list AliasRecord.init
      ⟨[(400, ["x"]), (401, ["y"])], 402⟩ ["x", "y"] Reachable.init rfl
  constructor
  · exact (claim_c1_alias_uniqueness hr).1 "x" 400 400 ["x"] ["x"]
      (by decide) (by decide) (by decide) (by decide)
  · exact (claim_c1_alias_uniqueness hr).2 "x" 400 ["x"]
      (by decide) (by decide)

/-- C5: in every reachable store the entry keys, in creation order, are
exactly `400, 401, …`; so the first entity gets 400, the `n`-th gets
`400 + n - 1`, the next assignment is `400 + count`, and every assigned ID
is below every future one (no reuse). -/
theorem claim_c5_monotonic_ids {r : AliasRecord} (h : Reachable r) :
    r.next_id = 400 + r.dict.length ∧
    r.dict.map Prod.fst = List.range' 400 r.dict.length ∧
    (∀ n, ∀ hn : n < r.dict.length, (r.dict.get ⟨n, hn⟩).1 = 400 + n) ∧
    (r.new_id).1 = 400 + r.dict.length ∧
    ∀ p ∈ r.dict, p.1 < (r.new_id).1 := by
  obtain ⟨⟨hk1, hk2⟩, -, -⟩ := reachable_wf h
  refine ⟨hk1, hk2, ?_, ?_, ?_⟩
  · intro n hn
    have hn1 : n < (r.dict.map Prod.fst).length := by simpa using hn
    have hn2 : n < (List.range' 400 r.dict.length).length := by simpa using hn
    have h1 : (r.dict.map Prod.fst)[n]? = (List.range' 400 r.dict.length)[n]? := by
      rw [hk2]
    rw [List.getElem?_eq_getElem hn1, List.getElem?_eq_getElem hn2] at h1
    have h2 : (r.dict.map Prod.fst)[n] = (r.dict.get ⟨n, hn⟩).1 := by
      rw [List.get_eq_getElem, List.getElem_map]
    have h3 : (List.range' 400 r.dict.length)[n] = 400 + n := by
      rw [List.getElem_range']
      simp
    injection h1 with h1
    rw [← h2, h1, h3]
  · show r.next_id = _
    exact hk1
  · intro p hp
    have := keysOk_lt ⟨hk1, hk2⟩ hp
    exact this.2

/-- Witness for C5: the reachable two-entity store has counter `402` and
hands out `402` next. -/
theorem claim_c5_witness :
    (⟨[(400, ["x"]), (401, ["y"])], 402⟩ : AliasRecord).next_id = 400 + 2 ∧
    ((⟨[(400, ["x"]), (401, ["y"])], 402⟩ : AliasRecord).new_id).1 = 402 := by
  have hr : Reachable ⟨[(400, ["x"]), (401, ["y"])], 402⟩ :=
    @Reachable.add_new_list AliasRecord.init
      ⟨[(400, ["x"]), (401, ["y"])], 402⟩ ["x", "y"] Reachable.init rfl
  have h := claim_c5_monotonic_ids hr
  exact ⟨h.1, h.2.2.2.1⟩

-- ### Characterizing the `id_together` scan

theorem loop_cons_skip {r : AliasRecord} {a : Alias} {rest : List Alias}
    {ids : List Nat} {last : Option Nat} (hg : skipGuard r last a = true) :
    r.id_together_loop (a :: rest) ids last =
      r.id_together_loop rest ids last := by
  conv_lhs => unfold AliasRecord.id_together_loop
  rw [hg]
  simp

theorem loop_cons_unknown {r : AliasRecord} {a : Alias} {rest : List Alias}
    {ids : List Nat} {last : Option Nat} (hg : skipGuard r last a = false)
    (hio : r.id_of? a = none) :
    r.id_together_loop (a :: rest) ids last =
      r.id_together_loop rest ids last := by
  conv_lhs => unfold AliasRecord.id_together_loop
  rw [hg, hio]
  simp

theorem loop_cons_found {r : AliasRecord} {a : Alias} {rest : List Alias}
    {ids : List Nat} {last : Option Nat} {id : Nat}
    (hg : skipGuard r last a = false) (hio : r.id_of? a = some id) :
    r.id_together_loop (a :: rest) ids last =
      r.id_together_loop rest
        (if ids.contains id then ids else ids ++ [id]) (some id) := by
  conv_lhs => unfold AliasRecord.id_together_loop
  rw [hg, hio]
  simp

/-- The loop invariant of the `id_together` scan, under the store
invariant: membership in the accumulated ID list, emptiness of `last_id`,
and well-formedness of the accumulators are all characterized. -/
theorem loop_spec {r : AliasRecord} (hw : Wf r) :
    ∀ (as : List Alias) (ids : List Nat) (last : Option Nat),
      (last = none → ids = []) →
      (∀ lid, last = some lid → lid ∈ ids ∧ ∃ l, (lid, l) ∈ r.dict) →
      ids.Nodup →
      (∀ i ∈ ids, ∃ l, (i, l) ∈ r.dict) →
      (∀ i, i ∈ (r.id_together_loop as ids last).1 ↔
        i ∈ ids ∨ ∃ a ∈ as, r.id_of? a = some i) ∧
      ((r.id_together_loop as ids last).2 = none ↔
        (last = none ∧ ∀ a ∈ as, r.id_of? a = none)) ∧
      (∀ lid, (r.id_together_loop as ids last).2 = some lid →
        lid ∈ (r.id_together_loop as ids last).1 ∧ ∃ l, (lid, l) ∈ r.dict) ∧
      (r.id_together_loop as ids last).1.Nodup := by
  intro as
  induction as with
  | nil =>
    intro ids last h1 h2 h3 h4
    refine ⟨?_, ?_, ?_, h3⟩
    · intro i
      simp [AliasRecord.id_together_loop]
    · simp only [AliasRecord.id_together_loop]
      constructor
      · intro h; exact ⟨h, by intro a ha; cases ha⟩
      · intro h; exact h.1
    · intro lid hl
      simp only [AliasRecord.id_together_loop] at hl ⊢
      exact ⟨(h2 lid hl).1, (h2 lid hl).2⟩
  | cons a rest ih =>
    intro ids last h1 h2 h3 h4
    by_cases hg : skipGuard r last a = true
    · -- skipped: the alias already belongs to `last_id`'s entity
      rw [loop_cons_skip hg]
      -- `last` must be `some lid` with the alias in entity `lid`
      cases last with
      | none => simp [skipGuard] at hg
      | some lid =>
        obtain ⟨hlin, l, hlmem⟩ := h2 lid rfl
        have haod : r.aliasesOfD lid = l :=
          aliasesOfD_of_mem (keysOk_nodup hw.1) hlmem
        have hcont : (r.aliasesOfD lid).contains a = true := by
          have hg2 : (truthy (some lid) && (r.aliasesOfD lid).contains a)
              = true := hg
          cases hca : (r.aliasesOfD lid).contains a
          · rw [hca, Bool.and_false] at hg2; cases hg2
          · rfl
        have hain : a ∈ l := by
          rw [haod] at hcont
          exact List.elem_iff.mp hcont
        have hioa : r.id_of? a = some lid := id_of?_of_mem hw.2.1 hlmem hain
        obtain ⟨cmem, cnone, clast, cnodup⟩ := ih ids (some lid) h1 h2 h3 h4
        refine ⟨?_, ?_, clast, cnodup⟩
        · intro i
          rw [cmem i]
          constructor
          · rintro (hi | ⟨b, hb, hib⟩)
            · exact Or.inl hi
            · exact Or.inr ⟨b, List.mem_cons_of_mem a hb, hib⟩
          · rintro (hi | ⟨b, hb, hib⟩)
            · exact Or.inl hi
            · rcases List.mem_cons.mp hb with rfl | hb
              · rw [hioa] at hib
                injection hib with hib
                rw [hib] at hlin
                exact Or.inl hlin
              · exact Or.inr ⟨b, hb, hib⟩
        · rw [cnone]
          constructor
          · rintro ⟨h5, -⟩; cases h5
          · rintro ⟨h5, -⟩; cases h5
    · rw [Bool.not_eq_true] at hg
      cases hio : r.id_of? a with
      | none =>
        rw [loop_cons_unknown hg hio]
        obtain ⟨cmem, cnone, clast, cnodup⟩ := ih ids last h1 h2 h3 h4
        refine ⟨?_, ?_, clast, cnodup⟩
        · intro i
          rw [cmem i]
          constructor
          · rintro (hi | ⟨b, hb, hib⟩)
            · exact Or.inl hi
            · exact Or.inr ⟨b, List.mem_cons_of_mem a hb, hib⟩
          · rintro (hi | ⟨b, hb, hib⟩)
            · exact Or.inl hi
            · rcases List.mem_cons.mp hb with rfl | hb
              · rw [hio] at hib; cases hib
              · exact Or.inr ⟨b, hb, hib⟩
        · rw [cnone]
          constructor
          · rintro ⟨h5, h6⟩
            refine ⟨h5, ?_⟩
            intro b hb
            rcases List.mem_cons.mp hb with rfl | hb
            · exact hio
            · exact h6 b hb
          · rintro ⟨h5, h6⟩
            exact ⟨h5, fun b hb => h6 b (List.mem_cons_of_mem a hb)⟩
      | some id =>
        rw [loop_cons_found hg hio]
        have hentry := id_of?_some hio
        have hids2 : (if ids.contains id then ids else ids ++ [id]).Nodup := by
          by_cases hc : ids.contains id
          · rw [if_pos hc]; exact h3
          · rw [if_neg hc]
            refine List.Nodup.append h3 (List.nodup_singleton id) ?_
            intro x hx hxa
            rw [List.mem_singleton] at hxa
            subst hxa
            exact hc (List.elem_iff.mpr hx)
        have hmem2 : id ∈ (if ids.contains id then ids else ids ++ [id]) := by
          by_cases hc : ids.contains id
          · rw [if_pos hc]; exact List.elem_iff.mp hc
          · rw [if_neg hc]; exact List.mem_append.mpr (Or.inr (List.mem_singleton.mpr rfl))
        have hall2 : ∀ i ∈ (if ids.contains id then ids else ids ++ [id]),
            ∃ l, (i, l) ∈ r.dict := by
          intro i hi
          by_cases hc : ids.contains id
          · rw [if_pos hc] at hi; exact h4 i hi
          · rw [if_neg hc] at hi
            rcases List.mem_append.mp hi with hi | hi
            · exact h4 i hi
            · rw [List.mem_singleton] at hi
              subst hi
              obtain ⟨l, hl, -⟩ := hentry
              exact ⟨l, hl⟩
        obtain ⟨cmem, cnone, clast, cnodup⟩ :=
          ih (if ids.contains id then ids else ids ++ [id]) (some id)
            (by intro h5; cases h5)
            (by
              intro lid hl
              injection hl with hl
              subst hl
              obtain ⟨l, hlm, -⟩ := hentry
              exact ⟨hmem2, l, hlm⟩)
            hids2 hall2
        refine ⟨?_, ?_, clast, cnodup⟩
        · intro i
          rw [cmem i]
          constructor
          · rintro (hi | ⟨b, hb, hib⟩)
            · by_cases hc : ids.contains id
              · rw [if_pos hc] at hi
                exact Or.inl hi
              · rw [if_neg hc] at hi
                rcases List.mem_append.mp hi with hi | hi
                · exact Or.inl hi
                · rw [List.mem_singleton] at hi
                  subst hi
                  exact Or.inr ⟨a, List.mem_cons_self a rest, hio⟩
            · exact Or.inr ⟨b, List.mem_cons_of_mem a hb, hib⟩
          · rintro (hi | ⟨b, hb, hib⟩)
            · left
              by_cases hc : ids.contains id
              · rw [if_pos hc]; exact hi
              · rw [if_neg hc]; exact List.mem_append.mpr (Or.inl hi)
            · rcases List.mem_cons.mp hb with rfl | hb
              · rw [hio] at hib
                injection hib with hib
                subst hib
                exact Or.inl hmem2
              · exact Or.inr ⟨b, hb, hib⟩
        · rw [cnone]
          constructor
          · rintro ⟨h5, -⟩; cases h5
          · rintro ⟨-, h6⟩
            have := h6 a (List.mem_cons_self a rest)
            rw [hio] at this
            cases this

theorem id_together_eq (r : AliasRecord) (as : List Alias) :
    r.id_together as =
      (if !truthy (r.id_together_loop as [] none).2 then
        .error .aliasNotFound
      else if 1 < (r.id_together_loop as [] none).1.length then
        .error .conflictingIds
      else
        match (r.id_together_loop as [] none).2 with
        | some lid => .ok lid
        | none => .error .aliasNotFound) := rfl

theorem loop_spec0 {r : AliasRecord} (hw : Wf r) (as : List Alias) :
    (∀ i, i ∈ (r.id_together_loop as [] none).1 ↔
      ∃ a ∈ as, r.id_of? a = some i) ∧
    ((r.id_together_loop as [] none).2 = none ↔
      ∀ a ∈ as, r.id_of? a = none) ∧
    (∀ lid, (r.id_together_loop as [] none).2 = some lid →
      lid ∈ (r.id_together_loop as [] none).1 ∧ ∃ l, (lid, l) ∈ r.dict) ∧
    (r.id_together_loop as [] none).1.Nodup := by
  obtain ⟨cmem, cnone, clast, cnodup⟩ :=
    loop_spec hw as [] none (fun _ => rfl) (fun lid h => by cases h)
      List.nodup_nil (fun i hi => by cases hi)
  refine ⟨?_, ?_, clast, cnodup⟩
  · intro i
    rw [cmem i]
    simp
  · rw [cnone]
    simp

theorem truthy_of_entry {r : AliasRecord} (hw : Wf r) {lid : Nat}
    {l : List Alias} (hl : (lid, l) ∈ r.dict) :
    truthy (some lid) = true := by
  have h400 : 400 ≤ lid := (keysOk_lt hw.1 hl).1
  unfold truthy
  simp
  omega

/-- `id_together` raises `AliasNotFoundException` exactly when no given
alias is recognized. -/
theorem id_together_not_found {r : AliasRecord} (hw : Wf r)
    {as : List Alias} :
    r.id_together as = .error .aliasNotFound ↔
      ∀ a ∈ as, r.id_of? a = none := by
  obtain ⟨cmem, cnone, clast, cnodup⟩ := loop_spec0 hw as
  rw [id_together_eq]
  constructor
  · intro h
    cases hres : (r.id_together_loop as [] none).2 with
    | none => exact cnone.mp hres
    | some lid =>
      obtain ⟨hin, l, hl⟩ := clast lid hres
      have htr := truthy_of_entry hw hl
      rw [hres, htr] at h
      rw [if_neg (by simp)] at h
      by_cases hlen : 1 < (r.id_together_loop as [] none).1.length
      · rw [if_pos hlen] at h
        injection h with h2
        exact PyErr.noConfusion h2
      · rw [if_neg hlen] at h
        exact Except.noConfusion h
  · intro h
    have hres : (r.id_together_loop as [] none).2 = none := cnone.mpr h
    rw [hres]
    rfl

/-- `id_together` raises the conflicting-IDs `ValueError` whenever two of
the given aliases are bound to different entities. -/
theorem id_together_conflict {r : AliasRecord} (hw : Wf r)
    {as : List Alias} {i j : Nat} {a b : Alias} (ha : a ∈ as) (hb : b ∈ as)
    (hia : r.id_of? a = some i) (hib : r.id_of? b = some j) (hij : i ≠ j) :
    r.id_together as = .error .conflictingIds := by
  obtain ⟨cmem, cnone, clast, cnodup⟩ := loop_spec0 hw as
  have hi : i ∈ (r.id_together_loop as [] none).1 :=
    (cmem i).mpr ⟨a, ha, hia⟩
  have hj : j ∈ (r.id_together_loop as [] none).1 :=
    (cmem j).mpr ⟨b, hb, hib⟩
  have hlen : 1 < (r.id_together_loop as [] none).1.length := by
    cases hl : (r.id_together_loop as [] none).1 with
    | nil => rw [hl] at hi; cases hi
    | cons x t =>
      cases t with
      | nil =>
        rw [hl] at hi hj
        rw [List.mem_singleton] at hi hj
        exact absurd (hi.trans hj.symm) hij
      | cons y t2 =>
        simp [List.length_cons]
  have hres2 : (r.id_together_loop as [] none).2 ≠ none := by
    intro hn
    have := cnone.mp hn a ha
    rw [hia] at this
    cases this
  cases hres : (r.id_together_loop as [] none).2 with
  | none => exact absurd hres hres2
  | some lid =>
    obtain ⟨-, l, hl⟩ := clast lid hres
    have htr := truthy_of_entry hw hl
    rw [id_together_eq, hres, htr]
    rw [if_neg (by simp), if_pos hlen]

/-- Eliminating a successful `id_together`: some given alias resolves to
the returned ID, every recognized given alias agrees on it, and the ID is
a live entry. -/
theorem id_together_ok_elim {r : AliasRecord} (hw : Wf r) {as : List Alias}
    {lid : Nat} (h : r.id_together as = .ok lid) :
    (∃ a ∈ as, r.id_of? a = some lid) ∧
    (∀ b ∈ as, ∀ j, r.id_of? b = some j → j = lid) ∧
    (∃ l, (lid, l) ∈ r.dict) := by
  obtain ⟨cmem, cnone, clast, cnodup⟩ := loop_spec0 hw as
  rw [id_together_eq] at h
  cases hres : (r.id_together_loop as [] none).2 with
  | none =>
    rw [hres] at h
    exact Except.noConfusion h
  | some l2 =>
    obtain ⟨hin, l, hl⟩ := clast l2 hres
    have htr := truthy_of_entry hw hl
    rw [hres, htr] at h
    rw [if_neg (by simp)] at h
    by_cases hlen : 1 < (r.id_together_loop as [] none).1.length
    · rw [if_pos hlen] at h
      exact Except.noConfusion h
    · rw [if_neg hlen] at h
      injection h with h2
      rw [← h2]
      have hsingle : ∀ i ∈ (r.id_together_loop as [] none).1, i = l2 := by
        intro i hi
        cases hlist : (r.id_together_loop as [] none).1 with
        | nil => rw [hlist] at hi; cases hi
        | cons x t =>
          cases t with
          | nil =>
            rw [hlist] at hi hin
            rw [List.mem_singleton] at hi hin
            rw [hi]
            exact hin.symm
          | cons y t2 =>
            rw [hlist] at hlen
            exact absurd (by simp [List.length_cons]) hlen
      refine ⟨(cmem l2).mp hin, ?_, l, hl⟩
      intro b hb j hj
      exact hsingle j ((cmem j).mpr ⟨b, hb, hj⟩)

/-- Introducing a successful `id_together`: when some given alias is bound
to `lid` and all recognized given aliases agree, the scan returns `lid`. -/
theorem id_together_ok_intro {r : AliasRecord} (hw : Wf r) {as : List Alias}
    {lid : Nat} (hex : ∃ a ∈ as, r.id_of? a = some lid)
    (huniq : ∀ b ∈ as, ∀ j, r.id_of? b = some j → j = lid) :
    r.id_together as = .ok lid := by
  obtain ⟨cmem, cnone, clast, cnodup⟩ := loop_spec0 hw as
  have hlidmem : lid ∈ (r.id_together_loop as [] none).1 :=
    (cmem lid).mpr hex
  have hsub : ∀ i ∈ (r.id_together_loop as [] none).1, i = lid := by
    intro i hi
    obtain ⟨b, hb, hib⟩ := (cmem i).mp hi
    exact huniq b hb i hib
  have hsingle : (r.id_together_loop as [] none).1 = [lid] := by
    cases hl : (r.id_together_loop as [] none).1 with
    | nil => rw [hl] at hlidmem; cases hlidmem
    | cons x t =>
      have hx : x = lid := hsub x (by rw [hl]; exact List.mem_cons_self x t)
      cases t with
      | nil => rw [hx]
      | cons y t2 =>
        have hy : y = lid := hsub y
          (by rw [hl]; exact List.mem_cons_of_mem x (List.mem_cons_self y t2))
        have hnd := cnodup
        rw [hl, List.nodup_cons] at hnd
        exact absurd (by rw [hx, hy]; exact List.mem_cons_self lid t2) hnd.1
  have hres2 : (r.id_together_loop as [] none).2 = some lid := by
    cases hres : (r.id_together_loop as [] none).2 with
    | none =>
      obtain ⟨a, ha, hia⟩ := hex
      have := cnone.mp hres a ha
      rw [hia] at this
      cases this
    | some l2 =>
      obtain ⟨hin, -⟩ := clast l2 hres
      rw [hsub l2 hin]
  obtain ⟨a, ha, hia⟩ := hex
  obtain ⟨l, hl, -⟩ := id_of?_some hia
  have htr := truthy_of_entry hw hl
  rw [id_together_eq, hres2, hsingle, htr]
  rw [if_neg (by simp), if_neg (by simp)]

-- ### Atomicity (C2) and the `add_together` contract (C3)

theorem new_id_contains (r : AliasRecord) (a : Alias) :
    (r.new_id).2.containsAlias a = r.containsAlias a := by
  unfold AliasRecord.containsAlias AliasRecord.all_aliases
  show ((r.dict ++ [(r.next_id, [])]).map Prod.snd).flatten.contains a = _
  rw [List.map_append, List.flatten_append]
  simp

/-- Adding aliases none of which is recognized at a fresh ID always
succeeds. -/
theorem add_at_id_fresh_ok {r : AliasRecord} {as : List Alias}
    (hall : ∀ a ∈ as, r.containsAlias a = false) :
    (r.new_id).2.add_at_id (r.new_id).1 as =
      .ok ((r.new_id).2.updateAt (r.new_id).1 as) := by
  have hex : (r.new_id).2.id_exists (r.new_id).1 = true := by
    rw [id_exists_iff]
    exact ⟨[], List.mem_append.mpr (Or.inr (List.mem_singleton.mpr rfl))⟩
  have hguard : (as.any (fun a =>
      !((r.new_id).2.aliasesOfD (r.new_id).1).contains a &&
        (r.new_id).2.containsAlias a)) = false := by
    rw [Bool.eq_false_iff]
    intro hany
    rw [List.any_eq_true] at hany
    obtain ⟨a, ha, hcond⟩ := hany
    have hy : (r.new_id).2.containsAlias a = true := by
      cases hYc : (r.new_id).2.containsAlias a
      · rw [hYc, Bool.and_false] at hcond; cases hcond
      · rfl
    rw [new_id_contains, hall a ha] at hy
    cases hy
  unfold AliasRecord.add_at_id
  rw [if_neg (fun hc => hc hex), hguard]
  simp

theorem add_new_single_error {r s : AliasRecord} {a : Alias} {e : PyErr}
    (h : r.add_new_entity_single a = .error (e, s)) : s = r := by
  unfold AliasRecord.add_new_entity_single at h
  by_cases hc : r.all_aliases.contains a
  · rw [if_pos hc] at h
    injection h with h1
    exact ((Prod.mk.injEq _ _ _ _).mp h1).2.symm
  · rw [if_neg hc] at h
    have h2 : (r.new_id).2.add_at_id (r.new_id).1 [a] = .error (e, s) := h
    have hok := @add_at_id_fresh_ok r [a] (by
      intro b hb
      rw [List.mem_singleton] at hb
      subst hb
      show r.all_aliases.contains b = false
      simpa using hc)
    rw [hok] at h2
    exact Except.noConfusion h2

theorem add_together_error {r s : AliasRecord} {as : List Alias} {b : Bool}
    {e : PyErr} (hw : Wf r) (h : r.add_together as b = .error (e, s)) :
    s = r := by
  unfold AliasRecord.add_together at h
  cases hit : r.id_together as with
  | ok id =>
    rw [hit] at h
    exact add_at_id_error h
  | error e2 =>
    rw [hit] at h
    cases e2 with
    | aliasNotFound =>
      by_cases hb : b
      · rw [if_pos hb] at h
        have hall : ∀ a ∈ as, r.containsAlias a = false := by
          intro a ha
          exact id_of?_eq_none.mp ((id_together_not_found hw).mp hit a ha)
        have h2 : (r.new_id).2.add_at_id (r.new_id).1 as = .error (e, s) := h
        rw [add_at_id_fresh_ok hall] at h2
        exact Except.noConfusion h2
      · rw [if_neg hb] at h
        injection h with h1
        exact ((Prod.mk.injEq _ _ _ _).mp h1).2.symm
    | idNotFound =>
      injection h with h1
      exact ((Prod.mk.injEq _ _ _ _).mp h1).2.symm
    | aliasExists =>
      injection h with h1
      exact ((Prod.mk.injEq _ _ _ _).mp h1).2.symm
    | conflictingIds =>
      injection h with h1
      exact ((Prod.mk.injEq _ _ _ _).mp h1).2.symm
    | stopIteration =>
      injection h with h1
      exact ((Prod.mk.injEq _ _ _ _).mp h1).2.symm
    | indexError =>
      injection h with h1
      exact ((Prod.mk.injEq _ _ _ _).mp h1).2.symm
    | assertFail =>
      injection h with h1
      exact ((Prod.mk.injEq _ _ _ _).mp h1).2.symm
    | dupIndex =>
      injection h with h1
      exact ((Prod.mk.injEq _ _ _ _).mp h1).2.symm

/-- C2 counterexample: `add_new_entity` on the collection `("a", "b")`
with `"b"` already registered raises, but leaves behind a freshly created
entity `401 ↦ {"a"}`: the store is not returned to its prior state. -/
theorem claim_c2_counterexample :
    AliasRecord.init.add_new_entity_single "b" = .ok ⟨[(400, ["b"])], 401⟩ ∧
    (⟨[(400, ["b"])], 401⟩ : AliasRecord).add_new_entity_list ["a", "b"] =
      .error (.aliasExists, ⟨[(400, ["b"]), (401, ["a"])], 402⟩) ∧
    (⟨[(400, ["b"]), (401, ["a"])], 402⟩ : AliasRecord) ≠
      ⟨[(400, ["b"])], 401⟩ :=
  ⟨rfl, rfl, by decide⟩

/-- C2 amended: failure atomicity holds for `add_at_id`, `add_together`,
and `add_new_entity` on a single alias — when any of these raises, the
store is exactly its prior state.  (It fails for `add_new_entity` on a
collection, which creates one entity per element before the raise, and for
multi-row `id_of_df`.) -/
theorem claim_c2_atomicity {r : AliasRecord} (hw : Wf r) :
    (∀ id as e s, r.add_at_id id as = .error (e, s) → s = r) ∧
    (∀ as b e s, r.add_together as b = .error (e, s) → s = r) ∧
    (∀ a e s, r.add_new_entity_single a = .error (e, s) → s = r) :=
  ⟨fun _ _ _ _ h => add_at_id_error h,
   fun _ _ _ _ h => add_together_error hw h,
   fun _ _ _ h => add_new_single_error h⟩

/-- Witness for C2: `add_together(("z",), allow_new=False)` on the empty
store raises and leaves the store untouched. -/
theorem claim_c2_witness :
    AliasRecord.init.add_together ["z"] false =
      .error (.aliasNotFound, AliasRecord.init) ∧
    AliasRecord.init = AliasRecord.init :=
  ⟨rfl, (claim_c2_atomicity Wf_init).2.1 ["z"] false .aliasNotFound
    AliasRecord.init rfl⟩

theorem add_at_id_ok_intro {r : AliasRecord} {id : Nat} {as : List Alias}
    (hex : r.id_exists id = true)
    (hg : ∀ a ∈ as, a ∈ r.aliasesOfD id ∨ r.containsAlias a = false) :
    r.add_at_id id as = .ok (r.updateAt id as) := by
  have hguard : (as.any (fun a =>
      !(r.aliasesOfD id).contains a && r.containsAlias a)) = false := by
    rw [Bool.eq_false_iff]
    intro hany
    rw [List.any_eq_true] at hany
    obtain ⟨a, ha, hcond⟩ := hany
    rcases hg a ha with hm | hnc
    · have hnot : (!(r.aliasesOfD id).contains a) = true := by
        cases hx : (!(r.aliasesOfD id).contains a)
        · rw [hx, Bool.false_and] at hcond; cases hcond
        · rfl
      rw [Bool.not_eq_true'] at hnot
      have hmm : (r.aliasesOfD id).contains a = true := List.elem_iff.mpr hm
      rw [hnot] at hmm
      cases hmm
    · have hct : r.containsAlias a = true := by
        cases hx : r.containsAlias a
        · rw [hx, Bool.and_false] at hcond; cases hcond
        · rfl
      rw [hnc] at hct
      cases hct
  unfold AliasRecord.add_at_id
  rw [if_neg (fun hc => hc hex), hguard]
  simp

/-- C3: the `add_together` (merge-by-aliases) contract.  Aliases spanning
two distinct entities raise the conflicting-IDs `ValueError`; no known
alias with `allow_new=False` raises `AliasNotFoundException`; no known
alias with `allow_new=True` creates one fresh entity carrying all given
aliases; and a unique resolved entity absorbs all given aliases. -/
theorem claim_c3_add_together_contract {r : AliasRecord} (hw : Wf r)
    (as : List Alias) (allow_new : Bool) :
    (∀ a b i j, a ∈ as → b ∈ as → r.id_of? a = some i →
      r.id_of? b = some j → i ≠ j →
      r.add_together as allow_new = .error (.conflictingIds, r)) ∧
    ((∀ a ∈ as, r.containsAlias a = false) → allow_new = false →
      r.add_together as allow_new = .error (.aliasNotFound, r)) ∧
    ((∀ a ∈ as, r.containsAlias a = false) → allow_new = true →
      r.add_together as allow_new =
        .ok ((r.new_id).2.updateAt (r.new_id).1 as) ∧
      ∀ a ∈ as, ((r.new_id).2.updateAt (r.new_id).1 as).id_of? a =
        some r.next_id) ∧
    (∀ lid, (∃ a ∈ as, r.id_of? a = some lid) →
      (∀ b ∈ as, ∀ j, r.id_of? b = some j → j = lid) →
      r.add_together as allow_new = .ok (r.updateAt lid as) ∧
      ∀ a ∈ as, (r.updateAt lid as).id_of? a = some lid) := by
  refine ⟨?_, ?_, ?_, ?_⟩
  · intro a b i j ha hb hia hib hij
    have hconf := id_together_conflict hw ha hb hia hib hij
    unfold AliasRecord.add_together
    rw [hconf]
  · intro hall hfalse
    subst hfalse
    have hnot := (id_together_not_found hw).mpr
      (fun a ha => id_of?_eq_none.mpr (hall a ha))
    unfold AliasRecord.add_together
    rw [hnot]
    exact rfl
  · intro hall htrue
    subst htrue
    have hnot := (id_together_not_found hw).mpr
      (fun a ha => id_of?_eq_none.mpr (hall a ha))
    have hok := add_at_id_fresh_ok hall
    have heq : r.add_together as true =
        .ok ((r.new_id).2.updateAt (r.new_id).1 as) := by
      unfold AliasRecord.add_together
      rw [hnot]
      exact hok
    refine ⟨heq, ?_⟩
    intro a ha
    have hw1 : Wf ((r.new_id).2.updateAt (r.new_id).1 as) :=
      Wf_add_at_id (Wf_new_id hw) hok
    have hentry1 : ((r.new_id).1, setUpdate [] as) ∈
        ((r.new_id).2.updateAt (r.new_id).1 as).dict := by
      rw [mem_updateAt]
      refine ⟨((r.new_id).1, []), ?_, ?_⟩
      · exact List.mem_append.mpr (Or.inr (List.mem_singleton.mpr rfl))
      · rw [if_pos rfl]
    exact id_of?_of_mem hw1.2.1 hentry1 (mem_setUpdate.mpr (Or.inr ha))
  · intro lid hex2 huniq
    have hok_t := id_together_ok_intro hw hex2 huniq
    obtain ⟨aw, haw, hiaw⟩ := hex2
    obtain ⟨l, hlmem, hawin⟩ := id_of?_some hiaw
    have hexi : r.id_exists lid = true := id_exists_iff.mpr ⟨l, hlmem⟩
    have hgg : ∀ a ∈ as, a ∈ r.aliasesOfD lid ∨
        r.containsAlias a = false := by
      intro a ha
      cases hca : r.containsAlias a
      · exact Or.inr rfl
      · obtain ⟨j, hj⟩ := id_of?_isSome hca
        have hjl := huniq a ha j hj
        subst hjl
        obtain ⟨l2, hl2, hain⟩ := id_of?_some hj
        left
        rw [aliasesOfD_of_mem (keysOk_nodup hw.1) hl2]
        exact hain
    have hadd := add_at_id_ok_intro hexi hgg
    have heq : r.add_together as allow_new = .ok (r.updateAt lid as) := by
      unfold AliasRecord.add_together
      rw [hok_t]
      exact hadd
    refine ⟨heq, ?_⟩
    intro a ha
    have hw1 : Wf (r.updateAt lid as) := Wf_add_at_id hw hadd
    have hentry1 : (lid, setUpdate l as) ∈ (r.updateAt lid as).dict := by
      rw [mem_updateAt]
      refine ⟨(lid, l), hlmem, ?_⟩
      rw [if_pos rfl]
    exact id_of?_of_mem hw1.2.1 hentry1 (mem_setUpdate.mpr (Or.inr ha))

/-- Witness for C3: with `E1 = {"a1"}` and `E2 = {"a2"}`,
`add_together(("a1", "a2"), allow_new=True)` raises the conflicting-IDs
error and leaves the store unchanged. -/
theorem claim_c3_witness :
    (⟨[(400, ["a1"]), (401, ["a2"])], 402⟩ : AliasRecord).add_together
      ["a1", "a2"] true =
    .error (.conflictingIds, ⟨[(400, ["a1"]), (401, ["a2"])], 402⟩) :=
  (claim_c3_add_together_contract (by decide) ["a1", "a2"] true).1
    "a1" "a2" 400 401 (by decide) (by decide) rfl rfl (by decide)

-- ### Claim C4: the `add_new_entity` contract

theorem containsAlias_ext {r : AliasRecord} {n m : Nat} {al : List Alias}
    (b : Alias) :
    (⟨r.dict ++ [(n, al)], m⟩ : AliasRecord).containsAlias b =
      (r.containsAlias b || al.contains b) := by
  unfold AliasRecord.containsAlias AliasRecord.all_aliases
  show ((r.dict ++ [(n, al)]).map Prod.snd).flatten.contains b = _
  rw [List.map_append, List.flatten_append]
  simp [List.elem_iff]
  cases h1 : decide (b ∈ (List.map Prod.snd r.dict).flatten) <;>
    cases h2 : decide (b ∈ al) <;>
      (simp at h1 h2; simp [List.mem_append, h1, h2]; try exact h1)

/-- `add_new_entity` on one fresh alias, in closed form: one new entry
holding exactly that alias. -/
theorem add_new_single_fresh {r : AliasRecord} {a : Alias} (hw : Wf r)
    (hc : r.containsAlias a = false) :
    r.add_new_entity_single a =
      .ok ⟨r.dict ++ [(r.next_id, [a])], r.next_id + 1⟩ := by
  have hok := @add_at_id_fresh_ok r [a] (by
    intro b hb
    rw [List.mem_singleton] at hb
    subst hb
    exact hc)
  have heq : (r.new_id).2.updateAt (r.new_id).1 [a] =
      ⟨r.dict ++ [(r.next_id, [a])], r.next_id + 1⟩ := by
    unfold AliasRecord.updateAt
    congr 1
    show (r.dict ++ [(r.next_id, [])]).map
        (fun (p : Nat × List Alias) =>
          if p.1 == r.next_id then (p.1, setUpdate p.2 [a]) else p) =
      r.dict ++ [(r.next_id, [a])]
    rw [List.map_append]
    congr 1
    · have hfix : ∀ p ∈ r.dict,
          (if p.1 == r.next_id then (p.1, setUpdate p.2 [a]) else p) = p := by
        intro p hp
        rw [if_neg]
        have := (keysOk_lt hw.1 hp).2
        simp
        omega
      rw [List.map_congr_left hfix]
      simp
    · show [if (r.next_id == r.next_id) = true then
          (r.next_id, setUpdate [] [a]) else (r.next_id, [])] = _
      rw [if_pos (beq_iff_eq.mpr rfl)]
      rfl
  have hsing : r.add_new_entity_single a =
      (r.new_id).2.add_at_id (r.new_id).1 [a] := by
    unfold AliasRecord.add_new_entity_single
    rw [if_neg]
    intro hcc
    have hct : r.containsAlias a = true := hcc
    rw [hc] at hct
    cases hct
  rw [hsing, hok, heq]

theorem add_new_single_exists {r : AliasRecord} {a : Alias}
    (hc : r.containsAlias a = true) :
    r.add_new_entity_single a = .error (.aliasExists, r) := by
  unfold AliasRecord.add_new_entity_single
  rw [if_pos (show r.all_aliases.contains a = true from hc)]

/-- C4 counterexample: `add_new_entity(("x", "y"))` on the empty store
creates two entities (400 holding only `"x"`, 401 holding only `"y"`),
not one fresh entity whose alias set is `{"x", "y"}` — and the Python
method returns `None`, not an `EntityId`. -/
theorem claim_c4_counterexample :
    AliasRecord.init.add_new_entity_list ["x", "y"] =
      .ok ⟨[(400, ["x"]), (401, ["y"])], 402⟩ ∧
    (⟨[(400, ["x"]), (401, ["y"])], 402⟩ : AliasRecord).aliasesOf 400 =
      some ["x"] ∧
    (⟨[(400, ["x"]), (401, ["y"])], 402⟩ : AliasRecord).id_of? "x" =
      some 400 ∧
    (⟨[(400, ["x"]), (401, ["y"])], 402⟩ : AliasRecord).id_of? "y" =
      some 401 :=
  ⟨rfl, rfl, rfl, rfl⟩

theorem add_new_list_cons_ok {r r2 : AliasRecord} {a : Alias}
    {rest : List Alias} (h : r.add_new_entity_single a = .ok r2) :
    r.add_new_entity_list (a :: rest) = r2.add_new_entity_list rest := by
  conv_lhs => unfold AliasRecord.add_new_entity_list
  rw [h]

theorem add_new_list_cons_err {r : AliasRecord} {a : Alias}
    {rest : List Alias} {e : PyErr × AliasRecord}
    (h : r.add_new_entity_single a = .error e) :
    r.add_new_entity_list (a :: rest) = .error e := by
  conv_lhs => unfold AliasRecord.add_new_entity_list
  rw [h]

theorem add_new_list_fresh {as : List Alias} : ∀ {r : AliasRecord}, Wf r →
    as.Nodup → (∀ a ∈ as, r.containsAlias a = false) →
    r.add_new_entity_list as =
      .ok ⟨r.dict ++ freshEntities r.next_id as, r.next_id + as.length⟩ := by
  induction as with
  | nil =>
    intro r hw _ _
    show Except.ok r = _
    have hr : (⟨r.dict ++ freshEntities r.next_id ([] : List Alias),
        r.next_id + ([] : List Alias).length⟩ : AliasRecord) = r := by
      show (⟨r.dict ++ [], r.next_id + 0⟩ : AliasRecord) = r
      cases r
      simp
    rw [hr]
  | cons a rest ih =>
    intro r hw hnd hall
    have hc : r.containsAlias a = false := hall a (List.mem_cons_self a rest)
    have hstep := add_new_single_fresh hw hc
    rw [add_new_list_cons_ok hstep]
    have hw2 : Wf (⟨r.dict ++ [(r.next_id, [a])], r.next_id + 1⟩ :
        AliasRecord) := Wf_add_new_single hw hstep
    have hnd2 := (List.nodup_cons.mp hnd).2
    have hall2 : ∀ b ∈ rest,
        (⟨r.dict ++ [(r.next_id, [a])], r.next_id + 1⟩ :
          AliasRecord).containsAlias b = false := by
      intro b hb
      rw [containsAlias_ext]
      have hba : b ≠ a := by
        intro he
        subst he
        exact (List.nodup_cons.mp hnd).1 hb
      rw [hall b (List.mem_cons_of_mem a hb)]
      show ([a].contains b) = false
      simp [hba]
    rw [ih hw2 hnd2 hall2]
    have hdict : (r.dict ++ [(r.next_id, [a])]) ++
        freshEntities (r.next_id + 1) rest =
        r.dict ++ freshEntities r.next_id (a :: rest) := by
      rw [List.append_assoc, List.singleton_append]
      rfl
    have hnum : r.next_id + 1 + rest.length =
        r.next_id + (a :: rest).length := by
      simp [List.length_cons]
      omega
    rw [hdict, hnum]

theorem add_new_list_err {as : List Alias} : ∀ {r : AliasRecord}, Wf r →
    (∃ a ∈ as, r.containsAlias a = true) →
    ∃ s, r.add_new_entity_list as = .error (.aliasExists, s) := by
  induction as with
  | nil =>
    intro r hw hex
    obtain ⟨a, ha, -⟩ := hex
    cases ha
  | cons a rest ih =>
    intro r hw hex
    obtain ⟨b, hb, hcb⟩ := hex
    cases hca : r.containsAlias a with
    | true =>
      refine ⟨r, ?_⟩
      rw [add_new_list_cons_err (add_new_single_exists hca)]
    | false =>
      have hstep := add_new_single_fresh hw hca
      rw [add_new_list_cons_ok hstep]
      have hw2 : Wf (⟨r.dict ++ [(r.next_id, [a])], r.next_id + 1⟩ :
          AliasRecord) := Wf_add_new_single hw hstep
      apply ih hw2
      have hbr : b ∈ rest := by
        rcases List.mem_cons.mp hb with rfl | hmem
        · rw [hca] at hcb; cases hcb
        · exact hmem
      refine ⟨b, hbr, ?_⟩
      rw [containsAlias_ext, hcb]
      rfl

/-- C4 amended: `add_new_entity` on a fresh single alias creates exactly
one fresh entity holding it (and `id_of` round-trips); on an
already-registered single alias it raises `ValueError`; on a collection
of distinct fresh aliases it creates one entity per element with
consecutive IDs, each holding exactly its own element; and on a
collection containing a registered alias it raises `ValueError` (after
creating entities for the preceding elements).  The Python method
returns `None` in all success cases, never the created ID. -/
theorem claim_c4_add_new_entity {r : AliasRecord} (hw : Wf r) :
    (∀ a, r.containsAlias a = false →
      r.add_new_entity_single a =
        .ok ⟨r.dict ++ [(r.next_id, [a])], r.next_id + 1⟩ ∧
      (⟨r.dict ++ [(r.next_id, [a])], r.next_id + 1⟩ :
        AliasRecord).id_of? a = some r.next_id ∧
      (⟨r.dict ++ [(r.next_id, [a])], r.next_id + 1⟩ :
        AliasRecord).aliasesOf r.next_id = some [a]) ∧
    (∀ a, r.containsAlias a = true →
      r.add_new_entity_single a = .error (.aliasExists, r)) ∧
    (∀ as, as.Nodup → (∀ a ∈ as, r.containsAlias a = false) →
      r.add_new_entity_list as =
        .ok ⟨r.dict ++ freshEntities r.next_id as,
          r.next_id + as.length⟩) ∧
    (∀ as, (∃ a ∈ as, r.containsAlias a = true) →
      ∃ s, r.add_new_entity_list as = .error (.aliasExists, s)) := by
  refine ⟨?_, fun a hc => add_new_single_exists hc,
    fun as hnd hall => add_new_list_fresh hw hnd hall,
    fun as hex => add_new_list_err hw hex⟩
  intro a hc
  have hstep := add_new_single_fresh hw hc
  refine ⟨hstep, ?_, ?_⟩
  · have hw2 : Wf (⟨r.dict ++ [(r.next_id, [a])], r.next_id + 1⟩ :
        AliasRecord) := Wf_add_new_single hw hstep
    refine id_of?_of_mem hw2.2.1 ?_ (List.mem_singleton.mpr rfl)
    exact List.mem_append.mpr (Or.inr (List.mem_singleton.mpr rfl))
  · have hw2 : Wf (⟨r.dict ++ [(r.next_id, [a])], r.next_id + 1⟩ :
        AliasRecord) := Wf_add_new_single hw hstep
    refine aliasesOf_of_mem (keysOk_nodup hw2.1) ?_
    exact List.mem_append.mpr (Or.inr (List.mem_singleton.mpr rfl))

/-- Witness for C4: `add_new_entity("x")` on the empty store creates
entity 400 holding exactly `"x"`, and the round trip holds. -/
theorem claim_c4_witness :
    AliasRecord.init.add_new_entity_single "x" =
      .ok ⟨[(400, ["x"])], 401⟩ ∧
    (⟨[(400, ["x"])], 401⟩ : AliasRecord).id_of? "x" = some 400 ∧
    (⟨[(400, ["x"])], 401⟩ : AliasRecord).aliasesOf 400 = some ["x"] :=
  (claim_c4_add_new_entity Wf_init).1 "x" rfl

-- ### Claim C7: `best_effort_alias`

theorem best_effort_eq {r : AliasRecord} {id : Nat} {l : List Alias}
    (h : r.aliasesOf id = some l) (rule : Alias → Bool) :
    r.best_effort_alias rule id = bestEffortSpec rule l := by
  unfold AliasRecord.best_effort_alias AliasRecord.all_aliases_of
    bestEffortSpec
  cases hx : r.aliasesOf id with
  | none => rw [hx] at h; cases h
  | some l2 =>
    rw [hx] at h
    injection h with h2
    subst h2
    rfl

/-- C7 counterexample: `add_together((), allow_new=True)` is a successful
public operation that creates entity 400 with an empty alias set; on this
valid ID `best_effort_alias` raises `StopIteration`, so the no-alias
branch is reachable. -/
theorem claim_c7_counterexample :
    AliasRecord.init.add_together [] true = .ok ⟨[(400, [])], 401⟩ ∧
    (⟨[(400, [])], 401⟩ : AliasRecord).id_exists 400 = true ∧
    (⟨[(400, [])], 401⟩ : AliasRecord).best_effort_alias
      best_effort_is_name 400 = .error .stopIteration :=
  ⟨rfl, rfl, rfl⟩

/-- C7 amended: for every valid ID whose alias set is nonempty,
`best_effort_alias` succeeds — returning the first alias satisfying the
rule when one exists, the first alias otherwise, and in all cases some
member of the set.  (Entities with empty alias sets are reachable, e.g.
via `add_together` of an empty collection, and there the call raises.) -/
theorem claim_c7_best_effort {r : AliasRecord} (rule : Alias → Bool)
    {id : Nat} {l : List Alias} (h : r.aliasesOf id = some l)
    (hne : l ≠ []) :
    (∀ a, l.find? rule = some a →
      r.best_effort_alias rule id = .ok a ∧ rule a = true) ∧
    (l.find? rule = none →
      r.best_effort_alias rule id = .ok (l.headD "")) ∧
    (∃ a ∈ l, r.best_effort_alias rule id = .ok a) := by
  rw [best_effort_eq h rule]
  unfold bestEffortSpec
  refine ⟨?_, ?_, ?_⟩
  · intro a hf
    rw [hf]
    exact ⟨rfl, List.find?_some hf⟩
  · intro hf
    rw [hf]
    cases l with
    | nil => exact absurd rfl hne
    | cons x t => rfl
  · cases hf : l.find? rule with
    | some a =>
      exact ⟨a, List.mem_of_find?_eq_some hf, rfl⟩
    | none =>
      cases l with
      | nil => exact absurd rfl hne
      | cons x t => exact ⟨x, List.mem_cons_self x t, rfl⟩

/-- Witness for C7: on an entity holding `{"student1", "Student One"}`,
the name rule selects `"Student One"`. -/
theorem claim_c7_witness :
    AliasRecord.best_effort_alias
      ⟨[(400, ["student1", "Student One"])], 401⟩ best_effort_is_name 400 =
      .ok "Student One" ∧
    best_effort_is_name "Student One" = true :=
  (claim_c7_best_effort best_effort_is_name
    (show AliasRecord.aliasesOf ⟨[(400, ["student1", "Student One"])], 401⟩
        400 = some ["student1", "Student One"] from rfl)
    (by decide)).1 "Student One" rfl

-- ### Claim C8: the name-likeness heuristic

theorem best_effort_is_name_eq (s : String) :
    best_effort_is_name s =
      (if (stripParen s.data).any (fun c => c.isDigit || c = ',') then false
       else (decide (2 ≤ (splitSpace (stripParen s.data)).length) &&
         [(splitSpace (stripParen s.data)).headD [],
          (splitSpace (stripParen s.data)).getLastD []].any
           (fun w => w.any capLike))) := rfl

theorem capLike_exists {w : List Char} :
    w.any capLike = true ↔
      ∃ c ∈ w, c.isUpper = true ∨ c.isAlpha = false := by
  rw [List.any_eq_true]
  constructor
  · rintro ⟨c, hc, hcap⟩
    refine ⟨c, hc, ?_⟩
    have hcap2 : (c.isUpper || !c.isAlpha) = true := hcap
    rw [Bool.or_eq_true, Bool.not_eq_true'] at hcap2
    exact hcap2
  · rintro ⟨c, hc, hcap⟩
    refine ⟨c, hc, ?_⟩
    show (c.isUpper || !c.isAlpha) = true
    rw [Bool.or_eq_true, Bool.not_eq_true']
    exact hcap

theorem nodigit_iff {t : List Char} :
    (t.any (fun c => c.isDigit || c = ',')) = false ↔
      ¬ ∃ c ∈ t, c.isDigit = true ∨ c = ',' := by
  rw [Bool.eq_false_iff]
  constructor
  · intro h hex
    apply h
    rw [List.any_eq_true]
    obtain ⟨c, hc, hcd⟩ := hex
    refine ⟨c, hc, ?_⟩
    rw [Bool.or_eq_true]
    rcases hcd with h2 | h2
    · exact Or.inl h2
    · exact Or.inr (decide_eq_true h2)
  · intro h hany
    apply h
    rw [List.any_eq_true] at hany
    obtain ⟨c, hc, hcd⟩ := hany
    rw [Bool.or_eq_true] at hcd
    refine ⟨c, hc, ?_⟩
    rcases hcd with h2 | h2
    · exact Or.inl h2
    · exact Or.inr (of_decide_eq_true h2)

theorem pair_any {w1 w2 : List Char} :
    ([w1, w2].any (fun w => w.any capLike)) = true ↔
      w1.any capLike = true ∨ w2.any capLike = true := by
  simp [List.any_cons, List.any_nil]

/-- C8 counterexample: on `"Xy ab"` the code returns `true` although the
last word `"ab"` has no uppercase or non-alphabetic character — the code
requires the condition of only one of the first and last words, not of
each. -/
theorem claim_c8_counterexample :
    best_effort_is_name "Xy ab" = true ∧ ¬ claimed_is_name "Xy ab" := by
  constructor
  · rfl
  · decide

/-- C8 amended: `best_effort_is_name` strips one parenthesized suffix,
rejects any remainder containing a digit or a comma, and accepts exactly
the remainders with at least two space-separated words in which the first
OR the last word contains an uppercase or non-alphabetic character; it
accepts "Name One (copy 2)" and rejects "name1" and "1". -/
theorem claim_c8_name_rule (s : String) :
    (best_effort_is_name s = true ↔ amended_is_name s) ∧
    best_effort_is_name "Name One (copy 2)" = true ∧
    best_effort_is_name "name1" = false ∧
    best_effort_is_name "1" = false := by
  refine ⟨?_, rfl, rfl, rfl⟩
  rw [best_effort_is_name_eq]
  unfold amended_is_name
  by_cases hd : (stripParen s.data).any (fun c => c.isDigit || c = ',') = true
  · rw [if_pos hd]
    constructor
    · intro h; cases h
    · rintro ⟨h1, -⟩
      exfalso
      apply h1
      rw [List.any_eq_true] at hd
      obtain ⟨c, hc, hcd⟩ := hd
      rw [Bool.or_eq_true] at hcd
      refine ⟨c, hc, ?_⟩
      rcases hcd with h2 | h2
      · exact Or.inl h2
      · exact Or.inr (of_decide_eq_true h2)
  · rw [if_neg hd]
    rw [Bool.and_eq_true, decide_eq_true_eq, pair_any, capLike_exists,
      capLike_exists]
    rw [Bool.not_eq_true, nodigit_iff] at hd
    constructor
    · rintro ⟨h1, h2⟩
      exact ⟨hd, h1, h2⟩
    · rintro ⟨-, h1, h2⟩
      exact ⟨h1, h2⟩

-- ### Claim C6: `id_of_df`

theorem id_of_df_row_found {r : AliasRecord} {row : List Alias} {a : Alias}
    {i : Nat} {e c : Bool} (hf : row.find? r.containsAlias = some a)
    (hio : r.id_of? a = some i) :
    r.id_of_df_row row e c =
      (if c then (r.add_at_id i row).map (fun r1 => (i, r1))
       else .ok (i, r)) := by
  unfold AliasRecord.id_of_df_row
  split
  · rename_i a2 hf2
    rw [hf] at hf2
    injection hf2 with hf2
    subst hf2
    split
    · rename_i i2 hio2
      rw [hio] at hio2
      injection hio2 with hio2
      subst hio2
      rfl
    · rename_i hio2
      rw [hio] at hio2
      cases hio2
  · rename_i hf2
    rw [hf] at hf2
    cases hf2

theorem id_of_df_row_new {r : AliasRecord} {row : List Alias} {e c : Bool}
    (hf : row.find? r.containsAlias = none) :
    r.id_of_df_row row e c =
      (if e then
        (if c then
          ((r.new_id).2.add_at_id (r.new_id).1 row).map
            (fun r1 => ((r.new_id).1, r1))
        else .ok ((r.new_id).1, (r.new_id).2))
      else .error (.aliasNotFound, r)) := by
  unfold AliasRecord.id_of_df_row
  split
  · rename_i a2 hf2
    rw [hf] at hf2
    cases hf2
  · rfl

/-- C6 counterexample: with `expect_new_entities=True` and
`collect_new_aliases=False` the fresh entity is created with an empty
alias set, not seeded from the row (`id_of("x")` fails afterwards); and
with `collect_new_aliases=True` a row whose candidates span two entities
raises instead of binding them. -/
theorem claim_c6_counterexample :
    AliasRecord.init.id_of_df [["x"]] true false =
      .ok ([400], ⟨[(400, [])], 401⟩) ∧
    (⟨[(400, [])], 401⟩ : AliasRecord).id_of? "x" = none ∧
    (⟨[(400, ["a1"]), (401, ["a2"])], 402⟩ : AliasRecord).id_of_df
      [["a1", "a2"]] false true =
      .error (.aliasExists, ⟨[(400, ["a1"]), (401, ["a2"])], 402⟩) :=
  ⟨rfl, rfl, rfl⟩

/-- C6 amended: `id_of_df` processes rows top to bottom; within a row the
first candidate already known to the store determines the ID; when none
is known, `expect_new_entities=True` creates a fresh entity that is seeded
from the row's candidates exactly when `collect_new_aliases=True` (with
`collect_new_aliases=False` it has no aliases), and
`expect_new_entities=False` raises `AliasNotFoundException` carrying the
row; when `collect_new_aliases=True` and the row's candidates do not span
a second entity, all of them become aliases of the resolved entity, so a
subsequent `id_of` on any of them returns that entity's ID (a row that
does span a second entity raises the alias-exists `ValueError`). -/
theorem claim_c6_id_of_df {r : AliasRecord} (hw : Wf r)
    (row : List Alias) (rest : List (List Alias)) (e c : Bool) :
    (r.id_of_df (row :: rest) e c =
      match r.id_of_df_row row e c with
      | .error err => .error err
      | .ok (id, r1) =>
        match r1.id_of_df rest e c with
        | .error err => .error err
        | .ok (ids, r2) => .ok (id :: ids, r2)) ∧
    (∀ a, row.find? r.containsAlias = some a →
      ∀ p, r.id_of_df_row row e c = .ok p → r.id_of? a = some p.1) ∧
    (row.find? r.containsAlias = none → e = true → c = true →
      ∃ r1, r.id_of_df_row row e c = .ok (r.next_id, r1) ∧
        ∀ a ∈ row, r1.id_of? a = some r.next_id) ∧
    (row.find? r.containsAlias = none → e = true → c = false →
      r.id_of_df_row row e c = .ok (r.next_id, (r.new_id).2) ∧
        (r.new_id).2.aliasesOf r.next_id = some []) ∧
    (row.find? r.containsAlias = none → e = false →
      r.id_of_df_row row e c = .error (.aliasNotFound, r)) ∧
    (∀ a, row.find? r.containsAlias = some a → c = true →
      (∀ b ∈ row, r.containsAlias b = false ∨ r.id_of? b = r.id_of? a) →
      ∃ id r1, r.id_of_df_row row e c = .ok (id, r1) ∧
        r.id_of? a = some id ∧ ∀ b ∈ row, r1.id_of? b = some id) := by
  refine ⟨rfl, ?_, ?_, ?_, ?_, ?_⟩
  · -- (1) the first known candidate decides the ID
    intro a hf p hok
    have hca : r.containsAlias a = true := List.find?_some hf
    obtain ⟨i, hio⟩ := id_of?_isSome hca
    rw [id_of_df_row_found hf hio] at hok
    by_cases hc : c = true
    · rw [if_pos hc] at hok
      obtain ⟨r2, hadd, hfe⟩ := except_map_ok hok
      rw [hio, ← hfe]
    · rw [if_neg hc] at hok
      injection hok with h1
      rw [hio, ← h1]
  · -- (2) fresh entity, seeded
    intro hf he hc
    subst he
    subst hc
    have hall : ∀ a ∈ row, r.containsAlias a = false := by
      intro a ha
      have := List.find?_eq_none.mp hf a ha
      simpa using this
    have hok := add_at_id_fresh_ok hall
    refine ⟨(r.new_id).2.updateAt (r.new_id).1 row, ?_, ?_⟩
    · rw [id_of_df_row_new hf, if_pos rfl, if_pos rfl, hok]
      rfl
    · intro a ha
      have hw2 : Wf ((r.new_id).2.updateAt (r.new_id).1 row) :=
        Wf_add_at_id (Wf_new_id hw) hok
      have hentry : ((r.new_id).1, setUpdate [] row) ∈
          ((r.new_id).2.updateAt (r.new_id).1 row).dict := by
        rw [mem_updateAt]
        refine ⟨((r.new_id).1, []), ?_, ?_⟩
        · exact List.mem_append.mpr (Or.inr (List.mem_singleton.mpr rfl))
        · rw [if_pos rfl]
      exact id_of?_of_mem hw2.2.1 hentry (mem_setUpdate.mpr (Or.inr ha))
  · -- (3) fresh entity, not seeded: empty alias set
    intro hf he hc
    subst he
    subst hc
    refine ⟨?_, ?_⟩
    · rw [id_of_df_row_new hf, if_pos rfl]
      rfl
    · refine aliasesOf_of_mem (keysOk_nodup (Wf_new_id hw).1) ?_
      exact List.mem_append.mpr (Or.inr (List.mem_singleton.mpr rfl))
  · -- (4) unknown row with expect_new_entities=False raises
    intro hf he
    subst he
    rw [id_of_df_row_new hf]
    rfl
  · -- (5) conflict-free collection: every candidate joins the entity
    intro a hf hc hnoconf
    subst hc
    have hca : r.containsAlias a = true := List.find?_some hf
    obtain ⟨i, hio⟩ := id_of?_isSome hca
    obtain ⟨l, hlmem, hain⟩ := id_of?_some hio
    have hgg : ∀ b ∈ row, b ∈ r.aliasesOfD i ∨
        r.containsAlias b = false := by
      intro b hb
      rcases hnoconf b hb with hnb | heqb
      · exact Or.inr hnb
      · rw [hio] at heqb
        obtain ⟨l2, hl2, hbin⟩ := id_of?_some heqb
        left
        rw [aliasesOfD_of_mem (keysOk_nodup hw.1) hl2]
        exact hbin
    have hadd := add_at_id_ok_intro (id_exists_iff.mpr ⟨l, hlmem⟩) hgg
    refine ⟨i, r.updateAt i row, ?_, hio, ?_⟩
    · rw [id_of_df_row_found hf hio, if_pos rfl, hadd]
      rfl
    · intro b hb
      have hw2 : Wf (r.updateAt i row) := Wf_add_at_id hw hadd
      have hentry : (i, setUpdate l row) ∈ (r.updateAt i row).dict := by
        rw [mem_updateAt]
        refine ⟨(i, l), hlmem, ?_⟩
        rw [if_pos rfl]
      exact id_of?_of_mem hw2.2.1 hentry (mem_setUpdate.mpr (Or.inr hb))

/-- Witness for C6: binding the one-row table `[["name1", "Student Name"]]`
against a store knowing `"Student Name"` resolves the row by its second
candidate and registers `"name1"` too. -/
theorem claim_c6_witness :
    ∃ id r1,
      AliasRecord.id_of_df_row
        ⟨[(400, ["student@gmail.com", "Student Name"])], 401⟩
        ["name1", "Student Name"] false true = .ok (id, r1) ∧
      AliasRecord.id_of?
        ⟨[(400, ["student@gmail.com", "Student Name"])], 401⟩
        "Student Name" = some id ∧
      ∀ b ∈ ["name1", "Student Name"], r1.id_of? b = some id :=
  (@claim_c6_id_of_df ⟨[(400, ["student@gmail.com", "Student Name"])], 401⟩
      (by decide) ["name1", "Student Name"] [] false true).2.2.2.2.2
    "Student Name" rfl rfl (by decide)

-- ### Claim C9: `get_unmatched_entities`

theorem mapM_ok_of_all {α β : Type} {f : α → Except PyErr β} {l : List α}
    {g : α → β} (h : ∀ a ∈ l, f a = .ok (g a)) :
    l.mapM f = .ok (l.map g) := by
  induction l with
  | nil => rfl
  | cons x xs ih =>
    rw [List.mapM_cons, h x (List.mem_cons_self x xs),
      ih (fun a ha => h a (List.mem_cons_of_mem x ha))]
    rfl

theorem gue_ok {r : AliasRecord} {ids : List Nat}
    {dest : List (List Alias)} {UD MIDS UIN : _}
    (h1 : (dest.filter (fun g => !g.any r.containsAlias)).mapM headE =
      .ok UD)
    (h2 : (dest.filter (fun g => g.any r.containsAlias)).mapM
      r.id_together = .ok MIDS)
    (h3 : (ids.filter (fun i => !MIDS.contains i)).mapM
      (r.best_effort_alias best_effort_is_name) = .ok UIN) :
    get_unmatched_entities r ids dest = .ok (UIN, UD) := by
  unfold get_unmatched_entities
  rw [h1, h2]
  have hlast : (match (ids.filter (fun i => !MIDS.contains i)).mapM
        (r.best_effort_alias best_effort_is_name) with
      | .error e => (.error e : Except PyErr (List Alias × List Alias))
      | .ok uin => .ok (uin, UD)) = .ok (UIN, UD) := by
    rw [h3]
  exact hlast

theorem best_effort_ok_of_nonempty {r : AliasRecord} {i : Nat}
    {l : List Alias} (h : r.aliasesOf i = some l) (hne : l ≠ []) :
    r.best_effort_alias best_effort_is_name i = .ok (bestEffortD r i) := by
  unfold bestEffortD
  rw [best_effort_eq h best_effort_is_name]
  unfold bestEffortSpec
  cases hf : l.find? best_effort_is_name with
  | some a => rfl
  | none =>
    cases l with
    | nil => exact absurd rfl hne
    | cons x t => rfl

theorem id_together_resolveD {r : AliasRecord} (hw : Wf r)
    {g : List Alias} (hm : g.any r.containsAlias = true)
    (hconf : ∀ a ∈ g, ∀ b ∈ g, ∀ i j,
      r.id_of? a = some i → r.id_of? b = some j → i = j) :
    r.id_together g = .ok (resolveD r g) := by
  rw [List.any_eq_true] at hm
  obtain ⟨a0, ha0, hca0⟩ := hm
  obtain ⟨i0, hi0⟩ := id_of?_isSome hca0
  have hmem0 : i0 ∈ g.filterMap r.id_of? :=
    List.mem_filterMap.mpr ⟨a0, ha0, hi0⟩
  have hres : resolveD r g ∈ g.filterMap r.id_of? := by
    unfold resolveD
    cases hfm : g.filterMap r.id_of? with
    | nil => rw [hfm] at hmem0; cases hmem0
    | cons x t => exact List.mem_cons_self x t
  obtain ⟨ar, har, hir⟩ := List.mem_filterMap.mp hres
  refine id_together_ok_intro hw ⟨ar, har, hir⟩ ?_
  intro b hb j hj
  exact hconf b hb ar har j (resolveD r g) hj hir

/-- C9 counterexample: the function can raise instead of returning the
described labels — on a matched destination group whose aliases span two
entities (`ValueError` from `id_together`), on an empty destination group
(`IndexError` from `[0]`), and on an input ID that is invalid
(`IdNotFoundException` from `best_effort_alias`). -/
theorem claim_c9_counterexample :
    get_unmatched_entities ⟨[(400, ["a1"]), (401, ["a2"])], 402⟩ []
      [["a1", "a2"]] = .error .conflictingIds ∧
    get_unmatched_entities AliasRecord.init [] [[]] =
      .error .indexError ∧
    get_unmatched_entities AliasRecord.init [999] [] =
      .error .idNotFound :=
  ⟨rfl, rfl, rfl⟩

/-- C9 amended: provided every destination group is nonempty and does not
span two entities, and every input ID is valid with a nonempty alias set,
`get_unmatched_entities` succeeds; a destination group is matched iff one
of its aliases is registered; the unmatched-destination labels are the
first aliases of the unmatched groups in order; and the unmatched-input
labels are `best_effort_alias` under the name rule of exactly those input
IDs that are no matched group's entity. -/
theorem claim_c9_get_unmatched {r : AliasRecord} (hw : Wf r)
    (input_ids : List Nat) (dest : List (List Alias))
    (hne : ∀ g ∈ dest, g ≠ [])
    (hconf : ∀ g ∈ dest, ∀ a ∈ g, ∀ b ∈ g, ∀ i j,
      r.id_of? a = some i → r.id_of? b = some j → i = j)
    (hids : ∀ i ∈ input_ids, ∃ l, r.aliasesOf i = some l ∧ l ≠ []) :
    get_unmatched_entities r input_ids dest = .ok
      ((input_ids.filter (fun i =>
          !((dest.filter (fun g => g.any r.containsAlias)).map
            (resolveD r)).contains i)).map (bestEffortD r),
       (dest.filter (fun g => !g.any r.containsAlias)).map
         (fun g => g.headD "")) ∧
    (∀ g ∈ dest, g.any r.containsAlias = true →
      r.id_together g = .ok (resolveD r g)) ∧
    (∀ i ∈ input_ids, r.best_effort_alias best_effort_is_name i =
      .ok (bestEffortD r i)) := by
  have hbe : ∀ i ∈ input_ids, r.best_effort_alias best_effort_is_name i =
      .ok (bestEffortD r i) := by
    intro i hi
    obtain ⟨l, hl, hlne⟩ := hids i hi
    exact best_effort_ok_of_nonempty hl hlne
  have hmid : ∀ g ∈ dest, g.any r.containsAlias = true →
      r.id_together g = .ok (resolveD r g) := by
    intro g hg hm
    exact id_together_resolveD hw hm (hconf g hg)
  refine ⟨?_, hmid, hbe⟩
  refine @gue_ok r input_ids dest _
    ((dest.filter (fun g => g.any r.containsAlias)).map (resolveD r))
    _ ?_ ?_ ?_
  · refine mapM_ok_of_all ?_
    intro g hg
    have hgne : g ≠ [] := hne g (List.mem_filter.mp hg).1
    cases g with
    | nil => exact absurd rfl hgne
    | cons x t => rfl
  · refine mapM_ok_of_all ?_
    intro g hg
    obtain ⟨hgd, hgm⟩ := List.mem_filter.mp hg
    exact hmid g hgd hgm
  · refine mapM_ok_of_all ?_
    intro i hi
    exact hbe i (List.mem_filter.mp hi).1

/-- Witness for C9: one unmatched input entity and one unmatched
destination group, reduced to their labels. -/
theorem claim_c9_witness :
    get_unmatched_entities ⟨[(400, ["student@mail.com"])], 401⟩ [400]
      [["Name One (copy 1)"]] =
      .ok (["student@mail.com"], ["Name One (copy 1)"]) := by
  have h := (@claim_c9_get_unmatched ⟨[(400, ["student@mail.com"])], 401⟩
    (by decide) [400] [["Name One (copy 1)"]] (by decide)
    (by
      intro g hg a ha b hb i j hia hib
      rw [List.mem_singleton] at hg
      subst hg
      rw [List.mem_singleton] at ha
      subst ha
      have hnone : AliasRecord.id_of? ⟨[(400, ["student@mail.com"])], 401⟩
          "Name One (copy 1)" = none := rfl
      rw [hnone] at hia
      cases hia)
    (by decide)).1
  exact h

-- ### Claim C10: `reindex_by_id` and the `inplace` flag

theorem set_index_by_ok {t : PyTable} {ids : List Nat} {t1 : PyTable}
    (h : set_index_by t ids = .ok t1) :
    ids.Nodup ∧ t1 = { t with idx := some ids } := by
  unfold set_index_by at h
  by_cases hnd : ids.Nodup
  · rw [if_pos hnd] at h
    injection h with h1
    exact ⟨hnd, h1.symm⟩
  · rw [if_neg hnd] at h
    cases h

theorem reindex_eq {r : AliasRecord} {heap : List PyTable} {dfRef : Nat}
    {e c inplace : Bool} {t0 : PyTable} (h0 : heap[dfRef]? = some t0) :
    r.reindex_by_id heap dfRef e c inplace =
      (match r.id_of_df t0.data e c with
       | .error err => .error err.1
       | .ok (ids, r1) =>
         match set_index_by t0 ids with
         | .error err => .error err
         | .ok t1 =>
           .ok (r1,
             (if inplace then heap ++ [t0] else heap).set
               (if inplace then heap.length else dfRef) t1,
             if inplace then heap.length else dfRef)) := by
  unfold AliasRecord.reindex_by_id
  rw [h0]

/-- C10: the `inplace` flag of `reindex_by_id` acts inverted relative to
its stated meaning.  With `inplace=False` (the default) the returned
reference IS the caller's table reference and the caller's table object
is re-keyed by the derived entity-ID column; with `inplace=True` the
re-keying is applied to a fresh copy and the caller's object is left
unchanged. -/
theorem claim_c10_reindex_inplace {r : AliasRecord} {heap : List PyTable}
    {dfRef : Nat} {e c inplace : Bool} {r1 : AliasRecord}
    {heap1 : List PyTable} {ref1 : Nat} {t0 : PyTable}
    (h0 : heap[dfRef]? = some t0)
    (hok : r.reindex_by_id heap dfRef e c inplace =
      .ok (r1, heap1, ref1)) :
    ∃ ids rr, r.id_of_df t0.data e c = .ok (ids, rr) ∧ r1 = rr ∧
      ids.Nodup ∧
      (inplace = false →
        ref1 = dfRef ∧
        heap1 = heap.set dfRef { t0 with idx := some ids }) ∧
      (inplace = true →
        ref1 = heap.length ∧
        heap1[dfRef]? = some t0 ∧
        heap1 = (heap ++ [t0]).set heap.length
          { t0 with idx := some ids }) := by
  rw [reindex_eq h0] at hok
  split at hok
  · cases hok
  · rename_i ids rr heq
    split at hok
    · cases hok
    · rename_i t1 heq2
      obtain ⟨hnd, ht1⟩ := set_index_by_ok heq2
      injection hok with h1
      have hr1 : rr = r1 := ((Prod.mk.injEq _ _ _ _).mp h1).1
      have h2 := ((Prod.mk.injEq _ _ _ _).mp h1).2
      have hh : ((if inplace then heap ++ [t0] else heap).set
          (if inplace then heap.length else dfRef) t1) = heap1 :=
        ((Prod.mk.injEq _ _ _ _).mp h2).1
      have href : (if inplace then heap.length else dfRef) = ref1 :=
        ((Prod.mk.injEq _ _ _ _).mp h2).2
      have hlt : dfRef < heap.length := (List.getElem?_eq_some.mp h0).1
      refine ⟨ids, rr, heq, hr1.symm, hnd, ?_, ?_⟩
      · intro hip
        subst hip
        simp only [Bool.false_eq_true, if_false] at hh href
        subst ht1
        exact ⟨href.symm, hh.symm⟩
      · intro hip
        subst hip
        simp only [if_true] at hh href
        subst ht1
        refine ⟨href.symm, ?_, hh.symm⟩
        rw [← hh]
        rw [List.getElem?_set_ne (show heap.length ≠ dfRef by omega)]
        rw [List.getElem?_append]
        rw [if_pos hlt]
        exact h0

/-- Witness for C10: a one-row table re-keyed with the default
`inplace=False`; the returned reference is the caller's reference 0 and
the heap slot 0 now holds the re-keyed table. -/
theorem claim_c10_witness :
    AliasRecord.reindex_by_id ⟨[(400, ["x"])], 401⟩
      [⟨[["x"]], none⟩] 0 false false false =
      .ok (⟨[(400, ["x"])], 401⟩, [⟨[["x"]], some [400]⟩], 0) ∧
    (0 : Nat) = 0 := by
  refine ⟨rfl, ?_⟩
  have h := @claim_c10_reindex_inplace ⟨[(400, ["x"])], 401⟩
    [⟨[["x"]], none⟩] 0 false false false ⟨[(400, ["x"])], 401⟩
    [⟨[["x"]], some [400]⟩] 0 ⟨[["x"]], none⟩ rfl rfl
  obtain ⟨ids, rr, hdf, hr, hnd, hf, ht⟩ := h
  exact (hf rfl).1
